import Mathlib

/-!
Verification development for the sat-o-mat ground-station control plane.

Shallow embedding of the core Rust modules:
  - `src/scheduler/parser.rs`  (time expressions, variable substitution, schedule parsing)
  - `src/scheduler/storage.rs` (schedule storage with overlap detection)
  - `src/scheduler/approval.rs`
  - `src/scheduler/runner.rs` and `src/scheduler/artifacts.rs`
  - `src/executor/mod.rs` and `src/executor/process.rs`
  - `src/tracker/tracker.rs` (shared-status state machine)
  - `src/tracker/parsing.rs` (TLE line splitting)
  - `src/tracker/trajectory.rs` and `src/predict/ground_station.rs` (propagation geometry)

Conventions of the embedding:
  - Rust `String`/`&str` values are `List Char`; `str::trim` is modelled on the
    ASCII whitespace characters that occur in schedule documents.
  - `chrono::DateTime<Utc>` and `chrono::Duration` are modelled as `Int`
    (a totally ordered time axis with translation), matching the operations the
    source uses on them (comparison, addition, subtraction).
  - `f64` arithmetic in the propagation geometry is modelled over `ℝ`.
  - Calls into external crates (chrono parsing, humantime, serde decoding, SGP4,
    the filesystem, process spawning) are modelled as oracle parameters or as
    explicit inputs: the theorems quantify over every possible answer of the
    external library.
  - Stateful code is modelled by explicit state passing; each mutex-protected
    critical section of the tracker worker becomes one atomic transition on the
    shared-status value.
-/

deriving instance DecidableEq for Except

namespace SatOMat

/-! ## Character-level string model (Rust `str` operations) -/

/-- ASCII whitespace test used to model Rust `char::is_whitespace` on the
character set that occurs in schedule documents. -/
def isWsChar (c : Char) : Bool :=
  c = ' ' || c = '\t' || c = '\n' || c = '\r'

/-- Model of Rust `str::trim`: drop whitespace from both ends. -/
def trimChars (s : List Char) : List Char :=
  ((s.dropWhile isWsChar).reverse.dropWhile isWsChar).reverse

/-- Model of Rust `str::replace(pat, rep)` (replace every non-overlapping
occurrence, scanning left to right), written with an explicit fuel argument so
that the recursion is structural; the fuel is always instantiated with the
length of the string, which is sufficient because every step consumes at least
one character. The patterns produced by the source (`format!("${}", name)`)
are never empty. -/
def replaceAllFuel (pat rep : List Char) : Nat → List Char → List Char
  | _, [] => []
  | 0, s => s
  | fuel + 1, c :: rest =>
    if pat ≠ [] ∧ pat.isPrefixOf (c :: rest) then
      rep ++ replaceAllFuel pat rep fuel (List.drop (pat.length - 1) rest)
    else
      c :: replaceAllFuel pat rep fuel rest

/-- Model of Rust `str::replace(pat, rep)`. -/
def replaceAll (pat rep s : List Char) : List Char :=
  replaceAllFuel pat rep s.length s

theorem replaceAllFuel_congr (pat rep : List Char) :
    ∀ f g s, s.length ≤ f → s.length ≤ g →
      replaceAllFuel pat rep f s = replaceAllFuel pat rep g s := by
  intro f
  induction f using Nat.strong_induction_on with
  | _ f ih =>
    intro g s hf hg
    match s, f, g with
    | [], _, _ => cases f <;> cases g <;> simp [replaceAllFuel]
    | c :: rest, f + 1, g + 1 =>
      simp only [replaceAllFuel]
      by_cases hpre : pat ≠ [] ∧ pat.isPrefixOf (c :: rest)
      · simp only [if_pos hpre]
        congr 1
        have hlen : (List.drop (pat.length - 1) rest).length ≤ rest.length := by
          simp [List.length_drop]
        exact ih f (Nat.lt_succ_self f) g _
          (le_trans hlen (Nat.le_of_succ_le_succ hf))
          (le_trans hlen (Nat.le_of_succ_le_succ hg))
      · simp only [if_neg hpre]
        congr 1
        exact ih f (Nat.lt_succ_self f) g rest
          (Nat.le_of_succ_le_succ hf) (Nat.le_of_succ_le_succ hg)

theorem replaceAll_nil (pat rep : List Char) : replaceAll pat rep [] = [] := rfl

/-- Unfolding `replaceAll` one character at a time when no match starts here. -/
theorem replaceAll_cons_no_match (pat rep : List Char) (c : Char) (rest : List Char)
    (h : ¬ (pat ≠ [] ∧ pat.isPrefixOf (c :: rest))) :
    replaceAll pat rep (c :: rest) = c :: replaceAll pat rep rest := by
  simp only [replaceAll, List.length_cons, replaceAllFuel, if_neg h]

/-- Unfolding `replaceAll` at a position where the pattern matches. -/
theorem replaceAll_cons_match (pat rep : List Char) (c : Char) (rest : List Char)
    (hne : pat ≠ []) (hpre : pat.isPrefixOf (c :: rest)) :
    replaceAll pat rep (c :: rest) =
      rep ++ replaceAll pat rep (List.drop (pat.length - 1) rest) := by
  simp only [replaceAll, List.length_cons, replaceAllFuel, if_pos (And.intro hne hpre)]
  congr 1
  exact replaceAllFuel_congr pat rep rest.length _ _
    (by simp [List.length_drop]) (le_refl _)

/-- A string that contains no occurrence of a `$`-headed pattern is left
unchanged by `replaceAll`: no replacement can start at any position because
every position starts with a non-`$` character. -/
theorem replaceAll_of_dollar_not_mem (cs rep : List Char) :
    ∀ s : List Char, '$' ∉ s → replaceAll ('$' :: cs) rep s = s := by
  intro s
  induction s with
  | nil => intro _; rfl
  | cons c rest ih =>
    intro hmem
    have hc : c ≠ '$' := by
      intro h
      exact hmem (h ▸ List.mem_cons_self c rest)
    rw [replaceAll_cons_no_match]
    · rw [ih (fun h => hmem (List.mem_cons_of_mem c h))]
    · rintro ⟨-, hpre⟩
      rcases (List.isPrefixOf_iff_prefix.mp hpre) with ⟨t, ht⟩
      injection ht with h1 _
      exact hc h1.symm

/-- An occurrence of a `$`-headed pattern that is preceded only by non-`$`
characters is replaced by `replaceAll`, and scanning continues after it. -/
theorem replaceAll_append_match (cs rep : List Char) :
    ∀ x y : List Char, '$' ∉ x →
      replaceAll ('$' :: cs) rep (x ++ ('$' :: cs) ++ y) =
        x ++ rep ++ replaceAll ('$' :: cs) rep y := by
  intro x
  induction x with
  | nil =>
    intro y _
    simp only [List.nil_append, List.cons_append]
    rw [replaceAll_cons_match ('$' :: cs) rep '$' (cs ++ y) (by simp)
      (List.isPrefixOf_iff_prefix.mpr (by exact ⟨y, by simp⟩))]
    simp [List.drop_left]
  | cons a x ih =>
    intro y hmem
    have ha : a ≠ '$' := by
      intro h
      exact hmem (h ▸ List.mem_cons_self a x)
    have hnm : ¬ (('$' :: cs) ≠ [] ∧
        ('$' :: cs).isPrefixOf (a :: (x ++ '$' :: cs ++ y))) := by
      rintro ⟨-, hpre⟩
      rcases (List.isPrefixOf_iff_prefix.mp hpre) with ⟨t, ht⟩
      injection ht with h1 _
      exact ha h1.symm
    simp only [List.cons_append]
    rw [replaceAll_cons_no_match _ _ _ _ hnm,
      ih y (fun h => hmem (List.mem_cons_of_mem a h))]

/-! ## Time expressions (`src/scheduler/parser.rs`) -/

/-- Model of `TimeExpr` from `parser.rs`: a relative duration against the schedule start
or an absolute instant. Times and durations are modelled as `Int`. -/
inductive TimeExpr where
  | Relative (d : Int)
  | Absolute (t : Int)
deriving DecidableEq, Repr

/-- Model of `TimeExpr::resolve`: `Relative(d)` resolves to `start + d`, `Absolute(dt)`
to `dt`. -/
def TimeExpr.resolve : TimeExpr → Int → Int
  | .Relative d, start => start + d
  | .Absolute dt, _ => dt

/-- Index of the last occurrence of `'+'` or `'-'` in a string: model of
`s.rfind(['+', '-'])`. (Byte and character indices coincide on the ASCII
strings the grammar accepts.) -/
def rfindPlusMinus : List Char → Option Nat
  | [] => none
  | c :: rest =>
    match rfindPlusMinus rest with
    | some i => some (i + 1)
    | none => if c = '+' ∨ c = '-' then some 0 else none

/-- Model of `parse_duration` from `parser.rs`: trims, then delegates to the external
`humantime` crate, modelled by the oracle `dur` (humantime durations are
non-negative, so the oracle returns `Nat`). -/
def parse_duration (dur : List Char → Option Nat) (s : List Char) : Option Nat :=
  dur (trimChars s)

/-- Splitting an optional leading sign, as done twice inside `parse_time` via
`strip_prefix('-')` / `strip_prefix('+')`. -/
def splitSign : List Char → Bool × List Char
  | '-' :: r => (true, r)
  | '+' :: r => (false, r)
  | r => (false, r)

/-- Model of `parse_time` from `parser.rs`. `rfc` is the oracle for
`chrono::DateTime::parse_from_rfc3339` (converted to UTC), `dur` the oracle for
`humantime::parse_duration`. Errors are collapsed to `none` (the source carries
the library's message string, which no caller inspects structurally). -/
def parse_time (rfc : List Char → Option Int) (dur : List Char → Option Nat)
    (s0 : List Char) : Option TimeExpr :=
  let s := trimChars s0
  -- Relative: T+10s, T-5m (case-insensitive leading `t`)
  if s.head? = some 't' ∨ s.head? = some 'T' then
    let p := splitSign (s.drop 1)
    (parse_duration dur p.2).map
      (fun d => TimeExpr.Relative (if p.1 then -(d : Int) else (d : Int)))
  else
    -- Absolute with offset: `<rfc3339> ± <duration>` (last sign past index 10)
    match rfindPlusMinus s with
    | some idx =>
      if 10 < idx then
        match rfc (trimChars (s.take idx)) with
        | some base =>
          let p := splitSign (s.drop idx)
          (parse_duration dur p.2).map
            (fun d => TimeExpr.Absolute (base + (if p.1 then -(d : Int) else (d : Int))))
        | none => (rfc s).map TimeExpr.Absolute
      else (rfc s).map TimeExpr.Absolute
    | none => (rfc s).map TimeExpr.Absolute

/-! ## YAML value trees (`serde_yaml::Value`)

The mutual presentation of sequences and mappings keeps all recursion
structural. Mapping keys are arbitrary YAML values, as in `serde_yaml`.
Numbers are modelled as `Int` (the schedule documents use integer scalars);
their stringification is the decimal rendering, as in `Number::to_string`. -/

mutual
inductive Yaml where
  | null
  | bool (b : Bool)
  | num (n : Int)
  | str (s : List Char)
  | seq (xs : YamlSeq)
  | mapping (m : YamlMap)
deriving DecidableEq

inductive YamlSeq where
  | nil
  | cons (v : Yaml) (rest : YamlSeq)
deriving DecidableEq

inductive YamlMap where
  | nil
  | cons (k v : Yaml) (rest : YamlMap)
deriving DecidableEq
end

/-- Model of `Value::as_str`. -/
def Yaml.as_str : Yaml → Option (List Char)
  | .str s => some s
  | _ => none

/-- Lookup of a string key in a YAML mapping (`Mapping::get` with a `&str`
index, first match). -/
def YamlMap.get : YamlMap → List Char → Option Yaml
  | .nil, _ => none
  | .cons k v rest, key => if k = .str key then some v else rest.get key

/-- Model of `Value::get` with a string index: only mappings contain keys. -/
def Yaml.get (v : Yaml) (key : List Char) : Option Yaml :=
  match v with
  | .mapping m => m.get key
  | _ => none

/-- The `variables` map of a schedule: name/value pairs. The Rust source holds
them in a `HashMap<String, Value>`, whose iteration order is unspecified; the
model fixes one iteration order by using a list. -/
abbrev Vars : Type := List (List Char × Yaml)

/-- Model of `HashMap::get` on the variables map. -/
def lookupVar : Vars → List Char → Option Yaml
  | [], _ => none
  | (k, v) :: rest, name => if k = name then some v else lookupVar rest name

/-- Model of `simple_to_string` from `parser.rs`: scalar stringification of strings,
numbers and booleans; non-scalar values yield `None`. -/
def simple_to_string : Yaml → Option (List Char)
  | .str s => some s
  | .num n => some (toString n).data
  | .bool b => some (if b then ['t','r','u','e'] else ['f','a','l','s','e'])
  | _ => none

/-- The inline-substitution loop inside `resolve_value`: for each variable (in
iteration order), replace every occurrence of `$name` by the variable's scalar
stringification; variables without a scalar stringification are skipped. -/
def inline_substitution (vars : Vars) (s : List Char) : List Char :=
  vars.foldl
    (fun acc p =>
      match simple_to_string p.2 with
      | some rep => replaceAll ('$' :: p.1) rep acc
      | none => acc)
    s

mutual
/-- Model of `resolve_value` from `parser.rs`: a string whose trimmed form starts with
`$` and contains no space is replaced by the full value of the named variable
when it is defined; otherwise inline substitution applies; mappings and
sequences recurse (keys are kept as they are); other values are returned
unchanged. -/
def resolve_value (vars : Vars) : Yaml → Yaml
  | .str s =>
    let t := trimChars s
    if t.head? = some '$' ∧ t.contains ' ' = false then
      match lookupVar vars (t.drop 1) with
      | some v => v
      | none => .str (inline_substitution vars s)
    else .str (inline_substitution vars s)
  | .mapping m => .mapping (resolve_value_map vars m)
  | .seq xs => .seq (resolve_value_seq vars xs)
  | .null => .null
  | .bool b => .bool b
  | .num n => .num n

def resolve_value_seq (vars : Vars) : YamlSeq → YamlSeq
  | .nil => .nil
  | .cons v rest => .cons (resolve_value vars v) (resolve_value_seq vars rest)

def resolve_value_map (vars : Vars) : YamlMap → YamlMap
  | .nil => .nil
  | .cons k v rest => .cons k (resolve_value vars v) (resolve_value_map vars rest)
end

/-- Shorthand: the character list of a string literal. -/
def strL (s : String) : List Char := s.data

/-! ## Subsystem commands (`src/tracker/types.rs`, `src/executor/mod.rs`,
`src/radio/mod.rs`) -/

/-- Model of `Frequencies` from `tracker/types.rs`. -/
structure Frequencies where
  uplink : List Char
  downlink : List Char
deriving DecidableEq

/-- Model of `RadioConfig` from `tracker/types.rs`. -/
structure RadioConfig where
  device : List Char
  frequencies : Frequencies
deriving DecidableEq

/-- Model of `RunCommand` from `tracker/types.rs` (the payload of `tracker.run`). -/
structure RunCommand where
  tle : List Char
  end_ : Option Int
  rotator : Option (List Char)
  radio : Option RadioConfig
deriving DecidableEq

/-- Model of `tracker::Command`. -/
inductive TrackerCommand where
  | RotatorPark (rotator : List Char)
  | Run (r : RunCommand)
  | Stop
deriving DecidableEq

/-- Model of `OnFail` from `executor/mod.rs`; the serde default is `Abort`. -/
inductive OnFail where
  | Abort
  | Continue
deriving DecidableEq

/-- Model of `executor::Command`. -/
inductive ExecutorCommand where
  | RunShell (cmd : List Char) (on_fail : OnFail)
  | Stop
deriving DecidableEq

/-- Model of `UdpOutput` from `radio/mod.rs`. -/
structure UdpOutput where
  send : List Char
  format : List Char
deriving DecidableEq

/-- Model of `Output` from `radio/mod.rs`. -/
structure Output where
  udp : Option UdpOutput
deriving DecidableEq

/-- Model of `radio::Command`. -/
inductive RadioCommand where
  | Run (radio : List Char) (bandwidth : List Char) (out : Option Output) (web_fft : Bool)
  | Stop
deriving DecidableEq

/-- Model of `parser::Command`: the three-subsystem tagged union. -/
inductive Command where
  | Tracker (c : TrackerCommand)
  | Executor (c : ExecutorCommand)
  | Radio (c : RadioCommand)
deriving DecidableEq

/-- Model of `parser::Step`. -/
structure Step where
  time : Option TimeExpr
  command : Command
deriving DecidableEq

/-- Model of `parser::ParseError`. The `Yaml` variant wraps the underlying
`serde_yaml::Error`, whose message no caller inspects; the model drops it. -/
inductive ParseError where
  | Yaml
  | Step (i : Nat) (msg : List Char)
  | Validation (msg : List Char)
deriving DecidableEq

/-- Model of `parser::Schedule`. -/
structure Schedule where
  start : Int
  end_ : Int
  vars : Vars
  steps : List Step
deriving DecidableEq

/-- Model of `parse_time_variable` from `parser.rs`: the named variable must be present,
be a string, and parse as an RFC 3339 timestamp (oracle `rfc`); otherwise a
`Validation` error is produced. The source appends the chrono error text to the
second message; the model keeps the stable prefix. -/
def parse_time_variable (rfc : List Char → Option Int) (vs : Vars)
    (name : List Char) : Except ParseError Int :=
  match (lookupVar vs name).bind Yaml.as_str with
  | none =>
    .error (.Validation (strL "missing mandatory variable \x27" ++ name ++ strL "\x27"))
  | some s =>
    match rfc s with
    | some t => .ok t
    | none => .error (.Validation (strL "invalid \x27" ++ name ++ strL "\x27 datetime"))

/-- Extraction of the `variables` mapping, modelling
`serde_yaml::from_value::<HashMap<String, Value>>`: succeeds exactly on
mappings all of whose keys are strings. -/
def mapToVars : YamlMap → Option Vars
  | .nil => some []
  | .cons k v rest =>
    match k.as_str, mapToVars rest with
    | some ks, some l => some ((ks, v) :: l)
    | _, _ => none

/-- Model of `from_value::<HashMap<String, Value>>` on an arbitrary YAML value. -/
def yamlToVars : Yaml → Option Vars
  | .mapping m => mapToVars m
  | _ => none

/-- The `find` over the step mapping selecting the command entry: the first
entry whose key is not the string `"time"`. -/
def YamlMap.findCommand : YamlMap → Option (Yaml × Yaml)
  | .nil => none
  | .cons k v rest => if k = .str (strL "time") then rest.findCommand else some (k, v)

/-- The `time` extraction chain at the top of `parse_step`:
`map.get("time").map(resolve_value).and_then(as_str).map(parse_time).transpose()`
— an absent `time` key, or one whose resolved value is not a string, yields no
time expression; a string that fails `parse_time` is a `Step` error. -/
def parse_step_time (rfc : List Char → Option Int) (dur : List Char → Option Nat)
    (i : Nat) (m : YamlMap) (vars : Vars) : Except ParseError (Option TimeExpr) :=
  match m.get (strL "time") with
  | none => .ok none
  | some tv =>
    match (resolve_value vars tv).as_str with
    | none => .ok none
    | some s =>
      match parse_time rfc dur s with
      | some te => .ok (some te)
      | none => .error (.Step i (strL "bad time expression"))

/-- Model of `parse_step` from `parser.rs`.
`dec_tracker`/`dec_executor`/`dec_radio` are oracles for the serde-derived
`from_value` decoders of the three command enums; their failures surface as
`ParseError::Yaml` (via the `#[from]` conversion), exactly as in the source. -/
def parse_step (rfc : List Char → Option Int) (dur : List Char → Option Nat)
    (dec_tracker : Yaml → Option TrackerCommand)
    (dec_executor : Yaml → Option ExecutorCommand)
    (dec_radio : Yaml → Option RadioCommand)
    (i : Nat) (value : Yaml) (vars : Vars) : Except ParseError Step :=
  match value with
  | .mapping m =>
    match parse_step_time rfc dur i m vars with
    | .error e => .error e
    | .ok time =>
      match m.findCommand with
      | none => .error (.Step i (strL "no command found"))
      | some (mk, mv) =>
        match mk.as_str with
        | none => .error (.Step i (strL "command must be string"))
        | some module =>
          let v := resolve_value vars mv
          if module = strL "tracker" then
            match dec_tracker v with
            | some c => .ok ⟨time, .Tracker c⟩
            | none => .error .Yaml
          else if module = strL "executor" then
            match dec_executor v with
            | some c => .ok ⟨time, .Executor c⟩
            | none => .error .Yaml
          else if module = strL "radio" then
            match dec_radio v with
            | some c => .ok ⟨time, .Radio c⟩
            | none => .error .Yaml
          else .error (.Step i (strL "unknown module: " ++ module))
  | _ => .error (.Step i (strL "expected mapping"))

/-- The indexed traversal of the `steps` sequence in `Schedule::from_str`. -/
def parse_steps (rfc : List Char → Option Int) (dur : List Char → Option Nat)
    (dec_tracker : Yaml → Option TrackerCommand)
    (dec_executor : Yaml → Option ExecutorCommand)
    (dec_radio : Yaml → Option RadioCommand)
    (vars : Vars) : Nat → YamlSeq → Except ParseError (List Step)
  | _, .nil => .ok []
  | i, .cons v rest => do
    let step ← parse_step rfc dur dec_tracker dec_executor dec_radio i v vars
    let more ← parse_steps rfc dur dec_tracker dec_executor dec_radio vars (i + 1) rest
    .ok (step :: more)

/-- The `variables` extraction at the top of `Schedule::from_str`:
`root.get("variables").map(from_value).transpose()?.unwrap_or_default()` —
an absent key yields the empty map, a malformed one a `Yaml` error. -/
def varsExtract (root : Yaml) : Except ParseError Vars :=
  match root.get (strL "variables") with
  | none => .ok []
  | some v =>
    match yamlToVars v with
    | some vs => .ok vs
    | none => .error ParseError.Yaml

/-- Model of `Schedule::from_str` from `parser.rs`, starting from the
already-parsed YAML document tree `root` (the initial `serde_yaml::from_str`
call is the external YAML parser; its failures are `ParseError::Yaml` before
any of the logic modelled here runs). -/
def schedule_from_str (rfc : List Char → Option Int) (dur : List Char → Option Nat)
    (dec_tracker : Yaml → Option TrackerCommand)
    (dec_executor : Yaml → Option ExecutorCommand)
    (dec_radio : Yaml → Option RadioCommand)
    (root : Yaml) : Except ParseError Schedule := do
  let vars ← varsExtract root
  let start ← parse_time_variable rfc vars (strL "start")
  let end_ ← parse_time_variable rfc vars (strL "end")
  if end_ ≤ start then
    Except.error (.Validation (strL "\x27end\x27 must be after \x27start\x27"))
  else
    match root.get (strL "steps") with
    | some (.seq xs) => do
      let steps ← parse_steps rfc dur dec_tracker dec_executor dec_radio vars 0 xs
      Except.ok (Schedule.mk start end_ vars steps)
    | _ => Except.error (.Step 0 (strL "missing \x27steps\x27"))

/-! ## Approval policy (`src/scheduler/approval.rs`) -/

/-- Model of `ApprovalMode`. -/
inductive ApprovalMode where
  | Auto
  | Manual
deriving DecidableEq

/-- Model of `ApprovalResult`. -/
inductive ApprovalResult where
  | Approved
  | Pending
deriving DecidableEq

/-- Model of `ApprovalResult::is_approved`. -/
def ApprovalResult.is_approved : ApprovalResult → Bool
  | .Approved => true
  | .Pending => false

/-- Model of `evaluate_approval`: `Auto → Approved`, `Manual → Pending`. -/
def evaluate_approval : ApprovalMode → ApprovalResult
  | .Auto => .Approved
  | .Manual => .Pending

/-! ## Schedule storage (`src/scheduler/storage.rs`)

The storage directory tree is modelled as one list of entries per state folder
(the file contents, which are only stored and returned verbatim, are dropped).
`get_schedules` sorts entries by `start` before returning them; the overlap
check only asks whether *some* entry overlaps, which is invariant under
reordering, so the model iterates the folder list directly. -/

/-- Model of `ScheduleState` (the variants beyond `Active`/`AwaitingApproval` are used
for execution-log states by `artifacts.rs` and `runner.rs`). -/
inductive ScheduleState where
  | Active
  | AwaitingApproval
  | Running
  | Completed
  | Failed
deriving DecidableEq

/-- Model of `ScheduleEntry`. -/
structure ScheduleEntry where
  id : List Char
  state : ScheduleState
  start : Int
  end_ : Int
deriving DecidableEq

/-- Model of `StorageError`; the `Io`/`Parse` payloads (library errors) are dropped. -/
inductive StorageError where
  | Io
  | Parse
  | NotFound (id : List Char)
  | Overlap
deriving DecidableEq

/-- The storage base directory: one folder of schedule files per state. -/
structure Storage where
  active : List ScheduleEntry
  awaiting : List ScheduleEntry
deriving DecidableEq

/-- Model of `Storage::check_overlap`: scan all `Active` entries (skipping `exclude_id`)
and report whether any interval `[s, e)` overlaps `[start, end)` under the
half-open convention `start < e ∧ s < end`. -/
def check_overlap (stor : Storage) (start end_ : Int) (exclude_id : Option (List Char)) :
    Bool :=
  stor.active.any fun e =>
    (match exclude_id with
     | some ex => decide (e.id ≠ ex)
     | none => true)
    && decide (start < e.end_) && decide (e.start < end_)

/-- Model of `Storage::save_schedule`: write the schedule file into the folder of the
given state. -/
def save_schedule (stor : Storage) (state : ScheduleState) (entry : ScheduleEntry) :
    Storage :=
  match state with
  | .Active => { stor with active := stor.active ++ [entry] }
  | .AwaitingApproval => { stor with awaiting := stor.awaiting ++ [entry] }
  | _ => stor

/-- Model of `Storage::submit_schedule`. The fresh `id` (timestamp plus UUID v4 in the
source) is passed as an argument. Returns the storage after the call together
with the call's result, reflecting that the source writes the file only after
the overlap check has passed. -/
def submit_schedule (stor : Storage) (schedule : Schedule) (id : List Char)
    (approval_mode : ApprovalMode) :
    Storage × Except StorageError (ScheduleEntry × ApprovalResult) :=
  if check_overlap stor schedule.start schedule.end_ none then
    (stor, .error .Overlap)
  else
    let approval_result := evaluate_approval approval_mode
    let target_state : ScheduleState :=
      if approval_result.is_approved then .Active else .AwaitingApproval
    let entry : ScheduleEntry :=
      { id := id, state := target_state, start := schedule.start, end_ := schedule.end_ }
    (save_schedule stor target_state entry, .ok (entry, approval_result))

/-! ## Tracker shared status (`src/tracker/tracker.rs`)

The shared `TrackerStatus` sits behind a mutex; every lock-protected critical
section in `tracker.rs` is modelled as one atomic transition on the status
value. Samples are opaque here (the claims about the status machine do not
inspect them), so the status is parametric in the sample type. -/

/-- Model of `TrackerMode`. -/
inductive TrackerMode where
  | Idle
  | Running (start : Int) (end_ : Option Int) (tle_name : Option (List Char))
deriving DecidableEq

/-- Model of `TrackerMode.isIdle` (for stating the status invariant). -/
def TrackerMode.isIdle : TrackerMode → Prop
  | .Idle => True
  | .Running _ _ _ => False

/-- Model of `TrackerStatus`. -/
structure TrackerStatus (α : Type) where
  mode : TrackerMode
  last_sample : Option α
  trajectory : List α
deriving DecidableEq

/-- The initial status built in `Tracker::new`. -/
def tracker_new_status {α : Type} : TrackerStatus α :=
  { mode := .Idle, last_sample := none, trajectory := [] }

/-- Model of `Tracker::stop`, status mutation (tracker.rs lines 91–92): after signalling
and joining the worker, set `mode := Idle`. `last_sample` and `trajectory` are
not touched. -/
def tracker_stop_transition {α : Type} (s : TrackerStatus α) : TrackerStatus α :=
  { s with mode := .Idle }

/-- Model of `Tracker::run`, status mutation (tracker.rs lines 129–134): set
`mode := Running { start := now, end, tle_name: None }`. -/
def tracker_run_transition {α : Type} (now : Int) (end_ : Option Int)
    (s : TrackerStatus α) : TrackerStatus α :=
  { s with mode := .Running now end_ none }

/-- Worker startup, status mutation (`run_tracker_loop`, lines 167–173):
record the tracked object's name in the `Running` mode. -/
def worker_init_transition {α : Type} (now : Int) (end_ : Option Int)
    (tle_name : Option (List Char)) (s : TrackerStatus α) : TrackerStatus α :=
  { s with mode := .Running now end_ tle_name }

/-- Worker trajectory publication (`run_tracker_loop`, lines 194–198): install
the freshly computed trajectory and clear `last_sample`. -/
def worker_publish_trajectory {α : Type} (t : List α) (s : TrackerStatus α) :
    TrackerStatus α :=
  { s with trajectory := t, last_sample := none }

/-- Worker sample publication (`run_tracker_loop`, lines 227–229). -/
def worker_publish_sample {α : Type} (p : α) (s : TrackerStatus α) : TrackerStatus α :=
  { s with last_sample := some p }

/-- Worker stop-signal handling (`run_tracker_loop`, lines 220–224): on a stop
signal, set `mode := Idle` and return. `last_sample` and `trajectory` are not
touched. -/
def worker_stop_transition {α : Type} (s : TrackerStatus α) : TrackerStatus α :=
  { s with mode := .Idle }

/-- Worker error reset (`Tracker::run` join wrapper, lines 114–118): on a
worker error, set `mode := Idle` and clear `last_sample` and `trajectory`. -/
def worker_error_reset {α : Type} (_s : TrackerStatus α) : TrackerStatus α :=
  { mode := .Idle, last_sample := none, trajectory := [] }

/-- Worker natural exit (`run_tracker_loop`, lines 240–243): after finishing a
bounded trajectory, set `mode := Idle` and clear `last_sample` and
`trajectory`. -/
def worker_normal_exit {α : Type} (_s : TrackerStatus α) : TrackerStatus α :=
  { mode := .Idle, last_sample := none, trajectory := [] }

/-- The status invariant claimed by the specification: whenever the mode is
`Idle`, the last sample is cleared and the trajectory is empty. -/
def idle_cleared {α : Type} (s : TrackerStatus α) : Prop :=
  s.mode = .Idle → s.last_sample = none ∧ s.trajectory = []

/-! ## TLE line parsing (`src/tracker/parsing.rs`) -/

/-- Model of `TrackerError` (`src/tracker`); library payloads dropped. -/
inductive TrackerError where
  | AlreadyRunning
  | InvalidTleFormat
  | InvalidTle
  | Propagation (msg : List Char)
deriving DecidableEq

/-- The non-blank lines of a TLE string: split on newlines, trim each line and
drop the empty ones — exactly the list built at the top of `parse_tle_lines`.
(Rust `str::lines` differs from splitting on `'\n'` only in the treatment of a
trailing newline and of `'\r'`, both of which produce lines that are blank
after trimming and are dropped by the filter.) -/
def tle_lines (tle : List Char) : List (List Char) :=
  ((tle.splitOn '\n').map trimChars).filter (fun l => l ≠ [])

/-- Model of `parse_tle_lines`: 2 non-blank lines are the two element lines, 3 non-blank
lines additionally carry the satellite name in front; anything else is
`InvalidTleFormat`. -/
def parse_tle_lines (tle : List Char) :
    Except TrackerError (Option (List Char) × List Char × List Char) :=
  match tle_lines tle with
  | [l1, l2] => .ok (none, l1, l2)
  | [n, l1, l2] => .ok (some n, l1, l2)
  | _ => .error .InvalidTleFormat

/-! ## Executor (`src/executor/mod.rs`, `src/executor/process.rs`) -/

/-- Model of `AbortSignal` (`src/abort.rs`). -/
structure AbortSignal where
  step : Nat
  reason : List Char
deriving DecidableEq

/-- Model of `ExecutorError`. -/
inductive ExecutorError where
  | Io (msg : List Char)
  | CommandFailed (code : Int)
  | Killed
  | NotRunning
deriving DecidableEq

/-- A tracked child process; the claims never inspect it, so it is opaque. -/
structure TrackedProcess where
  pid : Nat
deriving DecidableEq

/-- The executor's mutable state: the registry of tracked children. -/
structure ExecutorState where
  processes : List TrackedProcess
deriving DecidableEq

/-- Model of `Executor::execute_command`. `spawn_result` is the oracle for
`process::spawn` (opening the artifact files and spawning `sh -c <cmd>`),
which can only fail with an I/O error. `RunShell` registers the spawned child
and returns; `Stop` kills and clears the registry (kill failures are logged
and not propagated, so `stop_all` only ever returns `Ok`). -/
def execute_command (ex : ExecutorState) (cmd : ExecutorCommand)
    (spawn_result : Except (List Char) TrackedProcess) :
    ExecutorState × Except ExecutorError Unit :=
  match cmd with
  | .RunShell _ _ =>
    match spawn_result with
    | .ok p => ({ processes := ex.processes ++ [p] }, .ok ())
    | .error e => (ex, .error (.Io e))
  | .Stop => ({ processes := [] }, .ok ())

/-- What the background monitor of one child observes in the end
(`process.rs::monitor`): either the child was taken out of the registry by
`stop_all`, or `try_wait` returned an error, or the child exited with a status
(whose code is `None` when the child was killed by a signal). -/
inductive MonitorOutcome where
  | taken
  | waitErr (msg : List Char)
  | exited (code : Option Int)
deriving DecidableEq

/-- The reason string of the abort signal built by the monitor:
`format!("Process failed with exit code {}: {}", exit_code, cmd)`. -/
def monitor_reason (exit_code : Int) (cmd : List Char) : List Char :=
  strL "Process failed with exit code " ++ (toString exit_code).data ++ strL ": " ++ cmd

/-- Model of `process.rs::monitor`, summarised as the list of abort signals it emits
before terminating: one signal exactly when the child exited with a non-zero
code (a signal-killed child counts as code `-1`) and the step's policy is
`Abort`. -/
def monitor (outcome : MonitorOutcome) (step_index : Nat) (on_fail : OnFail)
    (cmd : List Char) : List AbortSignal :=
  match outcome with
  | .taken => []
  | .waitErr _ => []
  | .exited code =>
    let exit_code := code.getD (-1)
    if exit_code ≠ 0 ∧ on_fail = .Abort then
      [{ step := step_index, reason := monitor_reason exit_code cmd }]
    else []

/-! ## Artifacts log and runner (`src/scheduler/artifacts.rs`,
`src/scheduler/runner.rs`)

The runner's two kinds of interaction with the outside world are modelled as
oracles indexed by position in the run:
  - `abortO i` is what `wait_and_check_abort` receives during the wait before
    step `i` (for `i < n`) or during the final 100 ms drain (for `i = n`):
    `some sig` if an abort signal arrives during that wait, `none` if the wait
    times out (or the channel is disconnected, which the source also treats as
    "no abort").
  - `execO i` is the outcome of dispatching step `i`'s command to its
    subsystem: `none` for success, `some msg` for the subsystem's error.
Wall-clock sleeping, and the I/O of persisting `execution_log.yaml`, are
abstracted away. -/

/-- Model of `StepResult` (`artifacts.rs`), restricted to the fields the claims are
about; the wall-clock `started_at`/`completed_at` fields are dropped. -/
structure StepResult where
  step_index : Nat
  success : Bool
  error : Option (List Char)
deriving DecidableEq

/-- Model of `ExecutionLog` (`artifacts.rs`); `started_at`/`completed_at` dropped. -/
structure ExecutionLog where
  state : ScheduleState
  step_results : List StepResult
deriving DecidableEq

/-- Model of `ExecutionLog::new`: a fresh log in state `Running` with no results. -/
def execution_log_new : ExecutionLog :=
  { state := .Running, step_results := [] }

/-- Model of `ArtifactsManager::add_step_result`: append one result. -/
def add_step_result (log : ExecutionLog) (r : StepResult) : ExecutionLog :=
  { log with step_results := log.step_results ++ [r] }

/-- Model of `ArtifactsManager::finish_with_state`. -/
def finish_with_state (log : ExecutionLog) (state : ScheduleState) : ExecutionLog :=
  { log with state := state }

/-- Modelled from the spec: `ArtifactsManager::update_step_result` is called by
`runner.rs` but its definition is not part of the `artifacts.rs` in the tree;
per the specification the runner must "record the signal's reason against the
corresponding step in the Artifacts Log", so the model stores the reason in the
`error` field of every recorded result for that step index (leaving the rest of
the log unchanged). -/
def update_step_result (log : ExecutionLog) (step : Nat) (reason : List Char) :
    ExecutionLog :=
  { log with
    step_results := log.step_results.map fun r =>
      if r.step_index = step then { r with error := some reason } else r }

/-- Model of `RunnerError`; the three subsystem variants (`Executor`, `Tracker`,
`Radio`) and `Io` are collapsed into `Subsystem` carrying the message, since
the runner treats them uniformly (record, then propagate). -/
inductive RunnerError where
  | Subsystem (msg : List Char)
  | Aborted (step : Nat) (reason : List Char)
deriving DecidableEq

/-- Model of `Runner::wait_and_check_abort` at wait position `i`, followed by the rest
of `run_internal`, expressed as a recursion over the number of remaining steps.
`runner_loop abortO execO i rem log` runs waits `i, i+1, …` and steps
`i, …, i+rem-1`:
  - first the wait before the current position: an arriving signal updates the
    recorded result of the signal's step and aborts;
  - if no step remains, this wait was the final drain and the run completes;
  - otherwise step `i` executes, a `StepResult` is appended, and an error
    terminates the run.
`Runner::run` then finalizes the log with `Completed` or `Failed`. -/
def runner_loop (abortO : Nat → Option AbortSignal) (execO : Nat → Option (List Char)) :
    Nat → Nat → ExecutionLog → ExecutionLog × Except RunnerError Unit
  | i, rem, log =>
    match abortO i with
    | some sig =>
      (finish_with_state (update_step_result log sig.step sig.reason) .Failed,
        .error (.Aborted sig.step sig.reason))
    | none =>
      match rem with
      | 0 => (finish_with_state log .Completed, .ok ())
      | rem + 1 =>
        match execO i with
        | none =>
          runner_loop abortO execO (i + 1) rem
            (add_step_result log { step_index := i, success := true, error := none })
        | some msg =>
          (finish_with_state
            (add_step_result log { step_index := i, success := false, error := some msg })
            .Failed,
            .error (.Subsystem msg))

/-- Model of `Runner::run` for a schedule of `n` steps, starting from a fresh execution
log. -/
def runner_run (n : Nat) (abortO : Nat → Option AbortSignal)
    (execO : Nat → Option (List Char)) : ExecutionLog × Except RunnerError Unit :=
  runner_loop abortO execO 0 n execution_log_new

/-! ## Propagation geometry (`src/tracker/trajectory.rs`,
`src/predict/ground_station.rs`)

The `f64` arithmetic is modelled over `ℝ`. The calls into the external `sgp4`
crate (`datetime_to_minutes_since_epoch`, `Constants::propagate`,
`iau_epoch_to_sidereal_time ∘ julian_years_since_j2000`) are replaced by
explicit inputs: the TEME position/velocity prediction and the sidereal angle.
A claim about "every sample returned by `propagate_sample`" therefore
quantifies over every possible output of the SGP4 library. -/

noncomputable section

/-- Model of `EARTH_ROTATION_RAD_S` from `predict/ground_station.rs`. -/
def EARTH_ROTATION_RAD_S : ℝ := 7.292115e-5

/-- The speed of light in km/s used for Doppler (`SPEED_OF_LIGHT_KM_S`). -/
def SPEED_OF_LIGHT_KM_S : ℝ := 299792.458

/-- Rust `f64::to_radians`. -/
def toRadians (x : ℝ) : ℝ := x * (Real.pi / 180)

/-- Rust `f64::to_degrees`. -/
def toDegrees (x : ℝ) : ℝ := x * (180 / Real.pi)

/-- Rust `f64::atan2(self = y, other = x)`: the angle of the point `(x, y)` in
`(-π, π]`. -/
def atan2 (y x : ℝ) : ℝ :=
  if 0 < x then Real.arctan (y / x)
  else if x < 0 then
    (if 0 ≤ y then Real.arctan (y / x) + Real.pi else Real.arctan (y / x) - Real.pi)
  else
    (if 0 < y then Real.pi / 2 else if y < 0 then -(Real.pi / 2) else 0)

/-- Rust `f64::rem_euclid` (for a positive modulus: the least non-negative
residue). -/
def rem_euclid (x y : ℝ) : ℝ := x - y * (⌊x / y⌋ : ℤ)

/-- Rust `f64::round`: round to the nearest integer, ties away from zero
(Mathlib's `round` breaks ties upwards, so the negative half is mirrored). -/
def roundTiesAway (x : ℝ) : ℤ :=
  if 0 ≤ x then round x else -round (-x)

/-- Model of `round2` from `trajectory.rs`: `(value * 100.0).round() / 100.0`. -/
def round2 (value : ℝ) : ℝ := ((roundTiesAway (value * 100) : ℤ) : ℝ) / 100

/-- A 3-vector (`[f64; 3]`). -/
structure Vec3 where
  x : ℝ
  y : ℝ
  z : ℝ

/-- Model of `GroundStation` from `predict/ground_station.rs`. -/
structure GroundStation where
  latitude_deg : ℝ
  longitude_deg : ℝ
  altitude_m : ℝ

/-- Model of `GroundStation::lat_rad`. -/
def GroundStation.lat_rad (g : GroundStation) : ℝ := toRadians g.latitude_deg

/-- Model of `GroundStation::lon_rad`. -/
def GroundStation.lon_rad (g : GroundStation) : ℝ := toRadians g.longitude_deg

/-- Model of `GroundStation::position_ecef_km` (WGS-84). -/
def GroundStation.position_ecef_km (g : GroundStation) : Vec3 :=
  let a : ℝ := 6378.137
  let e2 : ℝ := 0.00669437999014
  let lat := g.lat_rad
  let lon := g.lon_rad
  let sin_lat := Real.sin lat
  let cos_lat := Real.cos lat
  let sin_lon := Real.sin lon
  let cos_lon := Real.cos lon
  let n := a / Real.sqrt (1 - e2 * sin_lat * sin_lat)
  let alt_km := g.altitude_m / 1000
  { x := (n + alt_km) * cos_lat * cos_lon
    y := (n + alt_km) * cos_lat * sin_lon
    z := (n * (1 - e2) + alt_km) * sin_lat }

/-- Model of `GroundStation::velocity_ecef_km_s`. -/
def GroundStation.velocity_ecef_km_s (g : GroundStation) : Vec3 :=
  let pos := g.position_ecef_km
  { x := -EARTH_ROTATION_RAD_S * pos.y
    y := EARTH_ROTATION_RAD_S * pos.x
    z := 0 }

/-- Model of `teme_to_ecef_position` from `trajectory.rs`. -/
def teme_to_ecef_position (pos_teme : Vec3) (gmst : ℝ) : Vec3 :=
  let cos_gmst := Real.cos gmst
  let sin_gmst := Real.sin gmst
  { x := pos_teme.x * cos_gmst + pos_teme.y * sin_gmst
    y := -pos_teme.x * sin_gmst + pos_teme.y * cos_gmst
    z := pos_teme.z }

/-- Model of `teme_to_ecef_velocity` from `trajectory.rs`. -/
def teme_to_ecef_velocity (pos_teme vel_teme : Vec3) (gmst : ℝ) : Vec3 :=
  let cos_gmst := Real.cos gmst
  let sin_gmst := Real.sin gmst
  let pos := teme_to_ecef_position pos_teme gmst
  let rotated : Vec3 :=
    { x := vel_teme.x * cos_gmst + vel_teme.y * sin_gmst
      y := -vel_teme.x * sin_gmst + vel_teme.y * cos_gmst
      z := vel_teme.z }
  let rot : Vec3 :=
    { x := -EARTH_ROTATION_RAD_S * pos.y
      y := EARTH_ROTATION_RAD_S * pos.x
      z := 0 }
  { x := rotated.x - rot.x, y := rotated.y - rot.y, z := rotated.z - rot.z }

/-- Model of `ecef_to_enu` from `trajectory.rs`: the `(east, north, up)` components of
`dr` at the given station latitude/longitude. -/
def ecef_to_enu (dr : Vec3) (lat_rad lon_rad : ℝ) : ℝ × ℝ × ℝ :=
  let sin_lat := Real.sin lat_rad
  let cos_lat := Real.cos lat_rad
  let sin_lon := Real.sin lon_rad
  let cos_lon := Real.cos lon_rad
  let east := -sin_lon * dr.x + cos_lon * dr.y
  let north := -sin_lat * cos_lon * dr.x - sin_lat * sin_lon * dr.y + cos_lat * dr.z
  let up := cos_lat * cos_lon * dr.x + cos_lat * sin_lon * dr.y + sin_lat * dr.z
  (east, north, up)

/-- Model of `FrequencyPlan`. -/
structure FrequencyPlan where
  uplink_hz : Option ℝ
  downlink_hz : Option ℝ

/-- Model of `apply_downlink_doppler` from `trajectory.rs`. -/
def apply_downlink_doppler (freq_hz range_rate_km_s : ℝ) : ℝ :=
  freq_hz * (1 - range_rate_km_s / SPEED_OF_LIGHT_KM_S)

/-- Model of `apply_uplink_doppler` from `trajectory.rs`. -/
def apply_uplink_doppler (freq_hz range_rate_km_s : ℝ) : ℝ :=
  freq_hz * (1 + range_rate_km_s / SPEED_OF_LIGHT_KM_S)

/-- Model of `TrackerSample` from `tracker/sample.rs` (timestamps as `Int`). -/
structure TrackerSample where
  timestamp : Int
  azimuth_deg : ℝ
  elevation_deg : ℝ
  range_km : ℝ
  range_rate_km_s : ℝ
  doppler_uplink_hz : Option ℝ
  doppler_downlink_hz : Option ℝ

/-- The line-of-sight vector `dr = sat_ecef − sta_ecef` computed inside
`propagate_sample` (named so the claims can refer to the computed range). -/
def los_dr (station : GroundStation) (pos_teme : Vec3) (sidereal : ℝ) : Vec3 :=
  let sat_ecef := teme_to_ecef_position pos_teme sidereal
  let sta_ecef := station.position_ecef_km
  { x := sat_ecef.x - sta_ecef.x
    y := sat_ecef.y - sta_ecef.y
    z := sat_ecef.z - sta_ecef.z }

/-- The range `|dr|` computed inside `propagate_sample`. -/
def los_range_km (station : GroundStation) (pos_teme : Vec3) (sidereal : ℝ) : ℝ :=
  let dr := los_dr station pos_teme sidereal
  Real.sqrt (dr.x * dr.x + dr.y * dr.y + dr.z * dr.z)

/-- The azimuth in degrees, before rounding, computed inside
`propagate_sample`: `atan2(east, north)` in degrees, normalised with
`rem_euclid 360`. -/
def azimuth_unrounded (station : GroundStation) (pos_teme : Vec3) (sidereal : ℝ) : ℝ :=
  let dr := los_dr station pos_teme sidereal
  let enu := ecef_to_enu dr station.lat_rad station.lon_rad
  rem_euclid (toDegrees (atan2 enu.1 enu.2.1)) 360

/-- Model of `propagate_sample` from `trajectory.rs`, after the SGP4 calls: the TEME
prediction (`pos_teme`, `vel_teme`) and the sidereal angle are inputs. The two
early-return error paths of the source (minutes-since-epoch and propagation
errors) precede everything modelled here, so every *returned* sample is of this
shape. -/
def propagate_sample (station : GroundStation) (pos_teme vel_teme : Vec3)
    (sidereal : ℝ) (timestamp : Int) (frequencies : FrequencyPlan) : TrackerSample :=
  let sat_vel_ecef := teme_to_ecef_velocity pos_teme vel_teme sidereal
  let sta_vel := station.velocity_ecef_km_s
  let dr := los_dr station pos_teme sidereal
  let range_km := los_range_km station pos_teme sidereal
  let enu := ecef_to_enu dr station.lat_rad station.lon_rad
  let azimuth := rem_euclid (toDegrees (atan2 enu.1 enu.2.1)) 360
  let elevation :=
    if 0 < range_km then toDegrees (Real.arcsin (enu.2.2 / range_km)) else 0
  let los_unit : Vec3 :=
    if 0 < range_km then
      { x := dr.x / range_km, y := dr.y / range_km, z := dr.z / range_km }
    else { x := 0, y := 0, z := 0 }
  let rel_vel : Vec3 :=
    { x := sat_vel_ecef.x - sta_vel.x
      y := sat_vel_ecef.y - sta_vel.y
      z := sat_vel_ecef.z - sta_vel.z }
  let range_rate_km_s :=
    rel_vel.x * los_unit.x + rel_vel.y * los_unit.y + rel_vel.z * los_unit.z
  { timestamp := timestamp
    azimuth_deg := round2 azimuth
    elevation_deg := round2 elevation
    range_km := round2 range_km
    range_rate_km_s := round2 range_rate_km_s
    doppler_uplink_hz :=
      frequencies.uplink_hz.map (fun f => apply_uplink_doppler f range_rate_km_s)
    doppler_downlink_hz :=
      frequencies.downlink_hz.map (fun f => apply_downlink_doppler f range_rate_km_s) }

end

/-! ## Claim C8 -/

/-- C8: `parse_tle_lines` succeeds exactly when its input has 2 or 3 non-blank
lines after trimming: with 2 lines it returns no name and the two lines, with
3 lines the first line is the name; every other non-blank line count yields
`InvalidTleFormat`. -/
theorem parse_tle_lines_spec (tle : List Char) :
    ((∃ r, parse_tle_lines tle = .ok r) ↔
      (tle_lines tle).length = 2 ∨ (tle_lines tle).length = 3) ∧
    (∀ l1 l2, tle_lines tle = [l1, l2] → parse_tle_lines tle = .ok (none, l1, l2)) ∧
    (∀ n l1 l2, tle_lines tle = [n, l1, l2] →
      parse_tle_lines tle = .ok (some n, l1, l2)) ∧
    ((tle_lines tle).length ≠ 2 → (tle_lines tle).length ≠ 3 →
      parse_tle_lines tle = .error .InvalidTleFormat) := by
  rcases h : tle_lines tle with - | ⟨a, - | ⟨b, - | ⟨c, - | ⟨d, rest⟩⟩⟩⟩ <;>
    simp [parse_tle_lines, h]

/-- Witness for C8 at concrete inputs: a 2-line TLE is accepted with no name,
a 4-line input is rejected. -/
theorem parse_tle_lines_spec_witness :
    parse_tle_lines (strL "1 A\n2 B") = .ok (none, strL "1 A", strL "2 B") ∧
    parse_tle_lines (strL "a\nb\nc\nd") = .error .InvalidTleFormat := by
  constructor
  · exact (parse_tle_lines_spec (strL "1 A\n2 B")).2.1 (strL "1 A") (strL "2 B")
      (by decide)
  · exact (parse_tle_lines_spec (strL "a\nb\nc\nd")).2.2.2 (by decide) (by decide)

/-! ## Claim C2 -/

theorem check_overlap_none_iff (stor : Storage) (start end_ : Int) :
    check_overlap stor start end_ none = true ↔
      ∃ e ∈ stor.active, start < e.end_ ∧ e.start < end_ := by
  simp [check_overlap, List.any_eq_true]

/-- C2: `submit_schedule` fails with `Overlap` iff some `Active` entry
`[s, e)` satisfies `schedule.start < e ∧ s < schedule.end` (half-open
convention, so boundary touching is accepted), and when `Overlap` is returned
the storage is unchanged (no file is written). -/
theorem submit_schedule_overlap_spec (stor : Storage) (schedule : Schedule)
    (id : List Char) (mode : ApprovalMode) :
    ((submit_schedule stor schedule id mode).2 = .error .Overlap ↔
      ∃ e ∈ stor.active, schedule.start < e.end_ ∧ e.start < schedule.end_) ∧
    ((submit_schedule stor schedule id mode).2 = .error .Overlap →
      (submit_schedule stor schedule id mode).1 = stor) := by
  by_cases h : check_overlap stor schedule.start schedule.end_ none
  · rw [check_overlap_none_iff] at h
    simp [submit_schedule, check_overlap_none_iff, h]
  · have h2 := h
    rw [check_overlap_none_iff] at h2
    simp only [Bool.not_eq_true] at h
    simp [submit_schedule, h, h2]

/-- Witness for C2: with one active entry `[10, 20)`, submitting `[15, 30)` is
rejected with `Overlap` and leaves storage unchanged, while the merely touching
`[20, 30)` is not rejected. -/
theorem submit_schedule_overlap_spec_witness :
    ((submit_schedule (Storage.mk [ScheduleEntry.mk (strL "A") .Active 10 20] [])
        (Schedule.mk 15 30 [] []) (strL "B") .Auto).2 = .error .Overlap ∧
      (submit_schedule (Storage.mk [ScheduleEntry.mk (strL "A") .Active 10 20] [])
        (Schedule.mk 15 30 [] []) (strL "B") .Auto).1 =
        Storage.mk [ScheduleEntry.mk (strL "A") .Active 10 20] []) ∧
    ¬ ((submit_schedule (Storage.mk [ScheduleEntry.mk (strL "A") .Active 10 20] [])
        (Schedule.mk 20 30 [] []) (strL "B") .Auto).2 = .error .Overlap) := by
  refine ⟨⟨?_, ?_⟩, ?_⟩
  · exact (submit_schedule_overlap_spec _ _ _ _).1.mpr (by decide)
  · exact (submit_schedule_overlap_spec
      (Storage.mk [ScheduleEntry.mk (strL "A") .Active 10 20] [])
      (Schedule.mk 15 30 [] []) (strL "B") .Auto).2
      ((submit_schedule_overlap_spec _ _ _ _).1.mpr (by decide))
  · intro hc
    exact (by decide :
        ¬ ∃ e ∈ (Storage.mk [ScheduleEntry.mk (strL "A") .Active 10 20] []).active,
          (Schedule.mk 20 30 [] []).start < e.end_ ∧
          e.start < (Schedule.mk 20 30 [] []).end_)
      ((submit_schedule_overlap_spec _ _ _ _).1.mp hc)

/-! ## Claim C1 -/

/-- Counterexample for C1: starting from the freshly constructed status, run
the tracker, let the worker publish a trajectory and a sample, and then stop it
(worker stop-signal handling followed by `Tracker::stop`'s own transition, the
order in which the source performs them). The resulting shared status has
`mode = Idle` while still holding the last sample and a non-empty trajectory:
`Stop` does not clear them, and the claimed `Idle ⇒ cleared` invariant fails on
this reachable state. -/
theorem tracker_stop_not_cleared :
    (tracker_stop_transition (worker_stop_transition
      (worker_publish_sample (42 : Int) (worker_publish_trajectory [42]
        (worker_init_transition 0 none none
          (tracker_run_transition 0 none tracker_new_status)))))).mode = .Idle ∧
    ¬ ((tracker_stop_transition (worker_stop_transition
      (worker_publish_sample (42 : Int) (worker_publish_trajectory [42]
        (worker_init_transition 0 none none
          (tracker_run_transition 0 none tracker_new_status)))))).last_sample = none ∧
      (tracker_stop_transition (worker_stop_transition
        (worker_publish_sample (42 : Int) (worker_publish_trajectory [42]
          (worker_init_transition 0 none none
            (tracker_run_transition 0 none tracker_new_status)))))).trajectory = []) := by
  decide

/-- C1 (amended): `Tracker::stop` and the worker's stop-signal handling set the
mode to `Idle` but leave `last_sample` and `trajectory` exactly as they were;
the shared status is cleared only by the worker's error reset and by the
worker's natural end-of-trajectory exit (both of which establish the
`Idle ⇒ cleared` invariant), and the invariant holds for the freshly
constructed status. -/
theorem tracker_stop_amended {α : Type} (s : TrackerStatus α) :
    (tracker_stop_transition s).mode = .Idle ∧
    (tracker_stop_transition s).last_sample = s.last_sample ∧
    (tracker_stop_transition s).trajectory = s.trajectory ∧
    (worker_stop_transition s).mode = .Idle ∧
    (worker_stop_transition s).last_sample = s.last_sample ∧
    (worker_stop_transition s).trajectory = s.trajectory ∧
    idle_cleared (worker_error_reset s) ∧
    idle_cleared (worker_normal_exit s) ∧
    idle_cleared (tracker_new_status : TrackerStatus α) := by
  refine ⟨rfl, rfl, rfl, rfl, rfl, rfl, ?_, ?_, ?_⟩ <;>
    exact fun _ => ⟨rfl, rfl⟩

/-- Witness for C1's amended theorem at a concrete running status. -/
theorem tracker_stop_amended_witness :
    (tracker_stop_transition
      (TrackerStatus.mk (α := Int) (.Running 0 none none) (some 7) [7])).mode = .Idle ∧
    (tracker_stop_transition
      (TrackerStatus.mk (α := Int) (.Running 0 none none) (some 7) [7])).last_sample =
      some 7 ∧
    idle_cleared (worker_error_reset
      (TrackerStatus.mk (α := Int) (.Running 0 none none) (some 7) [7])) := by
  have h := tracker_stop_amended
    (TrackerStatus.mk (α := Int) (.Running 0 none none) (some 7) [7])
  exact ⟨h.1, h.2.1, h.2.2.2.2.2.2.1⟩

/-! ## Claim C9 -/

/-- C9: `Executor::execute_command` returns `Ok` as soon as the spawn succeeds
(its result does not depend on the child's exit in any way — the model takes no
exit information at all), the only error it can return is the spawn I/O error
(`CommandFailed`, `Killed` and `NotRunning` are never constructed), and a
failing command is reported only asynchronously: the monitor emits an
`AbortSignal` exactly when the child exited with a non-zero code (a
signal-killed child counting as `-1`) and the step's policy is `Abort`. -/
theorem execute_command_spec (ex : ExecutorState) (cmd : ExecutorCommand)
    (sr : Except (List Char) TrackedProcess) :
    (∀ k, (execute_command ex cmd sr).2 ≠ .error (.CommandFailed k)) ∧
    (execute_command ex cmd sr).2 ≠ .error .Killed ∧
    (execute_command ex cmd sr).2 ≠ .error .NotRunning ∧
    (∀ c f p, cmd = .RunShell c f → sr = .ok p →
      execute_command ex cmd sr = (ExecutorState.mk (ex.processes ++ [p]), .ok ())) ∧
    (∀ outcome step f c,
      (monitor outcome step f c ≠ [] ↔
        (∃ code, outcome = .exited code ∧ code.getD (-1) ≠ 0) ∧ f = .Abort) ∧
      (∀ code, outcome = .exited code → code.getD (-1) ≠ 0 → f = .Abort →
        monitor outcome step f c =
          [AbortSignal.mk step (monitor_reason (code.getD (-1)) c)])) := by
  refine ⟨?_, ?_, ?_, ?_, ?_⟩
  · intro k
    cases cmd <;> cases sr <;> simp [execute_command]
  · cases cmd <;> cases sr <;> simp [execute_command]
  · cases cmd <;> cases sr <;> simp [execute_command]
  · rintro c f p rfl rfl
    simp [execute_command]
  · intro outcome step f c
    constructor
    · cases outcome with
      | taken => simp [monitor]
      | waitErr m => simp [monitor]
      | exited code =>
        by_cases h : code.getD (-1) ≠ 0 ∧ f = .Abort
        · simp [monitor, h]
        · constructor
          · intro hne
            exact absurd (by
              rcases not_and_or.mp h with h1 | h2
              · simp [monitor, if_neg (fun hc : _ ∧ _ => h1 hc.1)]
              · simp [monitor, if_neg (fun hc : _ ∧ _ => h2 hc.2)]) hne
          · rintro ⟨⟨code2, hc2, hne⟩, rfl⟩
            injection hc2 with h3
            exact absurd ⟨h3 ▸ hne, rfl⟩ h
    · rintro code rfl hne rfl
      simp [monitor, hne]

/-- Witness for C9: spawning `exit 3` succeeds immediately (registering the
child), and the monitor reports its non-zero exit via an abort signal. -/
theorem execute_command_spec_witness :
    execute_command (ExecutorState.mk []) (.RunShell (strL "exit 3") .Abort)
      (.ok (TrackedProcess.mk 1)) =
      (ExecutorState.mk [TrackedProcess.mk 1], .ok ()) ∧
    monitor (.exited (some 3)) 0 .Abort (strL "exit 3") =
      [AbortSignal.mk 0 (monitor_reason 3 (strL "exit 3"))] := by
  have h := execute_command_spec (ExecutorState.mk [])
    (.RunShell (strL "exit 3") .Abort) (.ok (TrackedProcess.mk 1))
  refine ⟨?_, ?_⟩
  · exact h.2.2.2.1 (strL "exit 3") .Abort (TrackedProcess.mk 1) rfl rfl
  · exact (h.2.2.2.2 (.exited (some 3)) 0 .Abort (strL "exit 3")).2
      (some 3) rfl (by decide) rfl

/-! ## Claim C3 -/

/-- The identifying part of a recorded `StepResult`: which step, and whether it
succeeded. -/
def idxSucc (r : StepResult) : Nat × Bool := (r.step_index, r.success)

theorem update_step_result_map (log : ExecutionLog) (st : Nat) (reason : List Char) :
    (update_step_result log st reason).step_results.map idxSucc =
      log.step_results.map idxSucc := by
  simp only [update_step_result, List.map_map]
  congr 1
  funext r
  by_cases h : r.step_index = st <;> simp [idxSucc, h]

theorem runner_loop_spec (abortO : Nat → Option AbortSignal)
    (execO : Nat → Option (List Char)) :
    ∀ rem i log,
      ∃ m, m ≤ rem ∧
        (runner_loop abortO execO i rem log).1.step_results.map idxSucc =
          log.step_results.map idxSucc ++
            (List.range' i m).map (fun j => (j, (execO j).isNone)) ∧
        ((runner_loop abortO execO i rem log).2 = .ok () →
          m = rem ∧ (runner_loop abortO execO i rem log).1.state = .Completed) ∧
        (∀ e, (runner_loop abortO execO i rem log).2 = .error e →
          (runner_loop abortO execO i rem log).1.state = .Failed) := by
  intro rem
  induction rem with
  | zero =>
    intro i log
    refine ⟨0, le_refl 0, ?_⟩
    cases habort : abortO i <;>
      simp [runner_loop, habort, finish_with_state, update_step_result_map]
  | succ rem ih =>
    intro i log
    cases habort : abortO i with
    | some sig =>
      refine ⟨0, Nat.zero_le _, ?_⟩
      simp [runner_loop, habort, finish_with_state, update_step_result_map]
    | none =>
      cases hexec : execO i with
      | none =>
        obtain ⟨m, hm, hmap, hok, herr⟩ :=
          ih (i + 1) (add_step_result log (StepResult.mk i true none))
        refine ⟨m + 1, Nat.succ_le_succ hm, ?_, ?_, ?_⟩
        · have hloop :
            runner_loop abortO execO i (rem + 1) log =
              runner_loop abortO execO (i + 1) rem
                (add_step_result log (StepResult.mk i true none)) := by
            simp [runner_loop, habort, hexec]
          rw [hloop, hmap, List.range'_succ i m 1, add_step_result]
          simp [idxSucc, hexec]
        · intro h
          have hloop :
            runner_loop abortO execO i (rem + 1) log =
              runner_loop abortO execO (i + 1) rem
                (add_step_result log (StepResult.mk i true none)) := by
            simp [runner_loop, habort, hexec]
          rw [hloop] at h ⊢
          exact ⟨by rw [(hok h).1], (hok h).2⟩
        · intro e h
          have hloop :
            runner_loop abortO execO i (rem + 1) log =
              runner_loop abortO execO (i + 1) rem
                (add_step_result log (StepResult.mk i true none)) := by
            simp [runner_loop, habort, hexec]
          rw [hloop] at h ⊢
          exact herr e h
      | some msg =>
        refine ⟨1, Nat.succ_le_succ (Nat.zero_le _), ?_⟩
        have h1 : List.range' i 1 1 = [i] := by
          rw [List.range'_succ i 0 1]
          rfl
        simp [runner_loop, habort, hexec, finish_with_state, add_step_result, h1,
          idxSucc]

/-- C3: `Runner::run` executes steps strictly in declared order: for some
`m ≤ n` (the number of executed steps), the execution log records exactly one
`StepResult` per executed step, in order — step indices `0, …, m−1`, with
`success` reflecting the subsystem outcome of each executed step; if the run
returns `Ok` then all `n` steps were executed and the log is finalized
`Completed`; every non-`Ok` termination (a step error or an abort signal
arriving during a wait) stops the run early — no step `≥ m` gets a
`StepResult` — and finalizes the log `Failed`. -/
theorem runner_run_spec (n : Nat) (abortO : Nat → Option AbortSignal)
    (execO : Nat → Option (List Char)) :
    ∃ m, m ≤ n ∧
      (runner_run n abortO execO).1.step_results.map
          (fun r => (r.step_index, r.success)) =
        (List.range m).map (fun j => (j, (execO j).isNone)) ∧
      ((runner_run n abortO execO).2 = .ok () →
        m = n ∧ (runner_run n abortO execO).1.state = .Completed) ∧
      (∀ e, (runner_run n abortO execO).2 = .error e →
        (runner_run n abortO execO).1.state = .Failed) := by
  obtain ⟨m, hm, hmap, hok, herr⟩ := runner_loop_spec abortO execO n 0 execution_log_new
  refine ⟨m, hm, ?_, hok, herr⟩
  rw [List.range_eq_range']
  simpa [runner_run, execution_log_new, idxSucc] using hmap

/-- Witness for C3: two steps, step 0 succeeds, an abort signal naming step 0
arrives during the wait before step 1; the run fails, the log is `Failed`, and
only step 0 has a `StepResult`. -/
theorem runner_run_spec_witness :
    (runner_run 2 (fun i => if i = 1 then some (AbortSignal.mk 0 (strL "boom")) else none)
      (fun _ => none)).1.state = .Failed ∧
    (runner_run 2 (fun i => if i = 1 then some (AbortSignal.mk 0 (strL "boom")) else none)
      (fun _ => none)).1.step_results.map (fun r => (r.step_index, r.success)) =
      [(0, true)] := by
  obtain ⟨m, hm, hmap, hok, herr⟩ := runner_run_spec 2
    (fun i => if i = 1 then some (AbortSignal.mk 0 (strL "boom")) else none)
    (fun _ => none)
  constructor
  · exact herr (.Aborted 0 (strL "boom")) (by decide)
  · have hres :
        (runner_run 2
          (fun i => if i = 1 then some (AbortSignal.mk 0 (strL "boom")) else none)
          (fun _ => none)).1.step_results.map (fun r => (r.step_index, r.success)) =
        [(0, true)] := by decide
    have hlen := congrArg List.length hmap
    rw [hres] at hlen
    simp at hlen
    have hm1 : m = 1 := by omega
    rw [hmap, hm1]
    decide

/-! ## Claim C5 -/

theorem rfindPlusMinus_none (d : List Char) (hd : ∀ x ∈ d, x ≠ '+' ∧ x ≠ '-') :
    rfindPlusMinus d = none := by
  induction d with
  | nil => rfl
  | cons a r ih =>
    have ha := hd a (List.mem_cons_self a r)
    simp only [rfindPlusMinus, ih (fun x hx => hd x (List.mem_cons_of_mem a hx))]
    simp [ha.1, ha.2]

theorem rfindPlusMinus_append (t : List Char) (c : Char) (d : List Char)
    (hc : c = '+' ∨ c = '-') (hd : ∀ x ∈ d, x ≠ '+' ∧ x ≠ '-') :
    rfindPlusMinus (t ++ c :: d) = some t.length := by
  induction t with
  | nil =>
    simp only [List.nil_append, rfindPlusMinus, rfindPlusMinus_none d hd]
    simp [hc]
  | cons a t ih =>
    simp only [List.cons_append, rfindPlusMinus, List.append_eq, ih]
    simp

theorem splitSign_no_sign (l : List Char) (h1 : l.head? ≠ some '-')
    (h2 : l.head? ≠ some '+') : splitSign l = (false, l) := by
  cases l with
  | nil => rfl
  | cons a r =>
    simp only [List.head?_cons, ne_eq, Option.some.injEq] at h1 h2
    simp only [splitSign]
    split
    · rename_i heq
      injection heq with ha
      exact absurd ha h1
    · rename_i heq
      injection heq with ha
      exact absurd ha h2
    · rfl

theorem splitSign_minus (r : List Char) : splitSign ('-' :: r) = (true, r) := rfl

theorem splitSign_plus (r : List Char) : splitSign ('+' :: r) = (false, r) := rfl

/-- C5: time expressions. (1) A string whose trimmed form begins with `t`/`T`
followed by an optional sign and a duration parses to `Relative` of the signed
duration. (2) An RFC 3339 timestamp followed by `+`/`-` and a duration (the
sign past byte index 10, the duration free of signs) parses to `Absolute` of
the timestamp shifted by the signed duration. (3) A plain RFC 3339 timestamp
(no sign past index 10) parses to `Absolute` of that instant. (4)
`TimeExpr::resolve` maps `Relative d` to `start + d` and `Absolute t` to `t`,
totally and deterministically for every start. -/
theorem parse_time_resolve_spec (rfc : List Char → Option Int)
    (dur : List Char → Option Nat) :
    (∀ s0 rest, (trimChars s0 = 't' :: rest ∨ trimChars s0 = 'T' :: rest) →
      (∀ r d, rest = '-' :: r → dur (trimChars r) = some d →
        parse_time rfc dur s0 = some (.Relative (-(d : Int)))) ∧
      (∀ r d, rest = '+' :: r → dur (trimChars r) = some d →
        parse_time rfc dur s0 = some (.Relative (d : Int))) ∧
      (∀ d, rest.head? ≠ some '-' → rest.head? ≠ some '+' →
        dur (trimChars rest) = some d →
        parse_time rfc dur s0 = some (.Relative (d : Int)))) ∧
    (∀ s0 t c d base du,
      trimChars s0 = t ++ c :: d →
      (c = '+' ∨ c = '-') →
      (∀ x ∈ d, x ≠ '+' ∧ x ≠ '-') →
      (trimChars s0).head? ≠ some 't' →
      (trimChars s0).head? ≠ some 'T' →
      10 < t.length →
      rfc (trimChars t) = some base →
      dur (trimChars d) = some du →
      parse_time rfc dur s0 =
        some (.Absolute (base + (if c = '-' then -(du : Int) else (du : Int))))) ∧
    (∀ s0 ts,
      (trimChars s0).head? ≠ some 't' →
      (trimChars s0).head? ≠ some 'T' →
      (∀ idx, rfindPlusMinus (trimChars s0) = some idx → idx ≤ 10) →
      rfc (trimChars s0) = some ts →
      parse_time rfc dur s0 = some (.Absolute ts)) ∧
    (∀ d start, (TimeExpr.Relative d).resolve start = start + d) ∧
    (∀ t start, (TimeExpr.Absolute t).resolve start = t) := by
  refine ⟨?_, ?_, ?_, fun _ _ => rfl, fun _ _ => rfl⟩
  · intro s0 rest hhead
    have hh : (trimChars s0).head? = some 't' ∨ (trimChars s0).head? = some 'T' := by
      rcases hhead with h | h <;> simp [h]
    have hdrop : (trimChars s0).drop 1 = rest := by
      rcases hhead with h | h <;> simp [h]
    refine ⟨?_, ?_, ?_⟩
    · rintro r d rfl hdur
      simp [parse_time, hh, hdrop, splitSign_minus, parse_duration, hdur]
    · rintro r d rfl hdur
      simp [parse_time, hh, hdrop, splitSign_plus, parse_duration, hdur]
    · intro d h1 h2 hdur
      simp [parse_time, hh, hdrop, splitSign_no_sign rest h1 h2, parse_duration, hdur]
  · intro s0 t c d base du htrim hc hd h1 h2 hlen hbase hdur
    have hfind : rfindPlusMinus (trimChars s0) = some t.length := by
      rw [htrim]
      exact rfindPlusMinus_append t c d hc hd
    have htake : (trimChars s0).take t.length = t := by
      rw [htrim]
      exact List.take_left t (c :: d)
    have hdrop : (trimChars s0).drop t.length = c :: d := by
      rw [htrim]
      exact List.drop_left t (c :: d)
    have hnottt : ¬ ((trimChars s0).head? = some 't' ∨ (trimChars s0).head? = some 'T') := by
      rintro (h | h)
      · exact h1 h
      · exact h2 h
    rcases hc with rfl | rfl
    · simp [parse_time, hnottt, hfind, hlen, htake, hdrop, hbase, splitSign_plus,
        parse_duration, hdur]
    · simp [parse_time, hnottt, hfind, hlen, htake, hdrop, hbase, splitSign_minus,
        parse_duration, hdur]
  · intro s0 ts h1 h2 hidx hrfc
    have hnottt : ¬ ((trimChars s0).head? = some 't' ∨ (trimChars s0).head? = some 'T') := by
      rintro (h | h)
      · exact h1 h
      · exact h2 h
    cases hfind : rfindPlusMinus (trimChars s0) with
    | none => simp [parse_time, hnottt, hfind, hrfc]
    | some idx =>
      have hle : ¬ 10 < idx := by
        have := hidx idx hfind
        omega
      simp [parse_time, hnottt, hfind, hle, hrfc]

/-- Witness for C5 at the specification's example: with oracles answering the
RFC 3339 literal and the `10s` duration, `"2026-01-12T10:00:00Z - 10s"` parses
to `Absolute` of ten seconds before the timestamp, `"T+10s"` parses to
`Relative 10`, and a negative relative expression resolves to `start − 10`. -/
theorem parse_time_resolve_spec_witness :
    parse_time
      (fun s => if s = strL "2026-01-12T10:00:00Z" then some 1768212000 else none)
      (fun s => if s = strL "10s" then some 10 else none)
      (strL "2026-01-12T10:00:00Z - 10s") = some (.Absolute 1768211990) ∧
    parse_time
      (fun s => if s = strL "2026-01-12T10:00:00Z" then some 1768212000 else none)
      (fun s => if s = strL "10s" then some 10 else none)
      (strL "T+10s") = some (.Relative 10) ∧
    TimeExpr.resolve (.Relative (-10)) 1768212000 = 1768211990 := by
  have h := parse_time_resolve_spec
    (fun s => if s = strL "2026-01-12T10:00:00Z" then some 1768212000 else none)
    (fun s => if s = strL "10s" then some 10 else none)
  refine ⟨?_, ?_, ?_⟩
  · have h2 := h.2.1 (strL "2026-01-12T10:00:00Z - 10s")
      (strL "2026-01-12T10:00:00Z ") '-' (strL " 10s") 1768212000 10
      (by decide) (Or.inr rfl) (by decide) (by decide) (by decide) (by decide)
      (by decide) (by decide)
    rw [h2]
    norm_num
  · have h1 := (h.1 (strL "T+10s") (strL "+10s") (Or.inr (by decide))).2.1
      (strL "10s") 10 (by decide) (by decide)
    exact h1
  · rw [h.2.2.2.1 (-10) 1768212000]
    decide

/-! ## Claim C4 -/

/-- Counterexample for C4: with the variables `a = "X"` and `ab = "Y"`, the
string `"z $ab"` contains the occurrence `$ab` of the defined string-valued
variable `ab`, so the claim requires the result `"z Y"`. The inline loop
iterates the `HashMap` in unspecified order; under the order `[a, ab]` the
replacement of `$a` fires first inside `$ab` and the code produces `"z Xb"`,
not `"z Y"` (the opposite order does produce `"z Y"`). -/
theorem resolve_value_order_dependent :
    resolve_value [(strL "a", .str (strL "X")), (strL "ab", .str (strL "Y"))]
      (.str (strL "z $ab")) = .str (strL "z Xb") ∧
    resolve_value [(strL "a", .str (strL "X")), (strL "ab", .str (strL "Y"))]
      (.str (strL "z $ab")) ≠ .str (strL "z Y") ∧
    resolve_value [(strL "ab", .str (strL "Y")), (strL "a", .str (strL "X"))]
      (.str (strL "z $ab")) = .str (strL "z Y") := by
  decide

/-- C4 (amended): full-value substitution for `$name`-only strings preserves
the value; otherwise the inline pass runs, iterating the variables in the
(unspecified) map order and replacing, for each scalar-valued variable in turn,
every occurrence of `$name` in the current string by its stringification — an
occurrence preceded only by `$`-free text is textually replaced, so
substitution is as claimed whenever the variables' patterns do not interfere,
but interfering names (one a prefix of another) make the result depend on the
iteration order; non-scalar variables are never substituted inline;
substitution recurses through mapping values and sequence elements; all other
values are unchanged. -/
theorem resolve_value_amended :
    (∀ (vars : Vars) s name v, trimChars s = '$' :: name →
      (trimChars s).contains ' ' = false →
      lookupVar vars name = some v →
      resolve_value vars (.str s) = v) ∧
    (∀ (vars : Vars) s,
      ¬ ((trimChars s).head? = some '$' ∧ (trimChars s).contains ' ' = false) →
      resolve_value vars (.str s) = .str (inline_substitution vars s)) ∧
    (∀ (vars : Vars) s,
      lookupVar vars ((trimChars s).drop 1) = none →
      resolve_value vars (.str s) = .str (inline_substitution vars s)) ∧
    (∀ name v rep x y, simple_to_string v = some rep → '$' ∉ x →
      inline_substitution [(name, v)] (x ++ '$' :: name ++ y) =
        x ++ rep ++ replaceAll ('$' :: name) rep y) ∧
    (∀ (vars : Vars) s, '$' ∉ s → inline_substitution vars s = s) ∧
    (∀ (vars : Vars) s, (∀ p ∈ vars, simple_to_string p.2 = none) →
      inline_substitution vars s = s) ∧
    (∀ (vars : Vars) m,
      resolve_value vars (.mapping m) = .mapping (resolve_value_map vars m)) ∧
    (∀ (vars : Vars) k v rest,
      resolve_value_map vars (.cons k v rest) =
        .cons k (resolve_value vars v) (resolve_value_map vars rest)) ∧
    (∀ (vars : Vars) xs,
      resolve_value vars (.seq xs) = .seq (resolve_value_seq vars xs)) ∧
    (∀ (vars : Vars) v rest,
      resolve_value_seq vars (.cons v rest) =
        .cons (resolve_value vars v) (resolve_value_seq vars rest)) ∧
    (∀ (vars : Vars), resolve_value vars .null = .null ∧
      (∀ b, resolve_value vars (.bool b) = .bool b) ∧
      (∀ n, resolve_value vars (.num n) = .num n)) := by
  refine ⟨?_, ?_, ?_, ?_, ?_, ?_,
    fun _ _ => rfl, fun _ _ _ _ => rfl, fun _ _ => rfl, fun _ _ _ => rfl,
    fun _ => ⟨rfl, fun _ => rfl, fun _ => rfl⟩⟩
  · intro vars s name v htrim hsp hlook
    have hsp2 : ' ' ∉ '$' :: name := by
      rw [htrim] at hsp
      simpa using hsp
    have hns : ' ' ∉ name := fun hm => hsp2 (List.mem_cons_of_mem _ hm)
    simp [resolve_value, htrim, hlook, hns]
  · intro vars s h
    rcases not_and_or.mp h with h1 | h2
    · simp [resolve_value, h1]
    · have hmem : ' ' ∈ trimChars s := by
        by_contra hnm
        exact h2 (by simpa using hnm)
      simp [resolve_value, hmem]
  · intro vars s hlook
    by_cases h : (trimChars s).head? = some '$' ∧ (trimChars s).contains ' ' = false
    · obtain ⟨hh, hcf⟩ := h
      have hnm : ' ' ∉ trimChars s := by simpa using hcf
      rw [List.drop_one] at hlook
      simp [resolve_value, hh, hnm, hlook]
    · rcases not_and_or.mp h with h1 | h2
      · simp [resolve_value, h1]
      · have hmem : ' ' ∈ trimChars s := by
          by_contra hnm
          exact h2 (by simpa using hnm)
        simp [resolve_value, hmem]
  · intro name v rep x y hsts hx
    simp only [inline_substitution, List.foldl_cons, List.foldl_nil, hsts]
    exact replaceAll_append_match name rep x y hx
  · intro vars s hs
    induction vars with
    | nil => rfl
    | cons p rest ih =>
      simp only [inline_substitution, List.foldl_cons]
      have hstep :
          (match simple_to_string p.2 with
            | some rep => replaceAll ('$' :: p.1) rep s
            | none => s) = s := by
        cases hsts : simple_to_string p.2 with
        | none => rfl
        | some rep => exact replaceAll_of_dollar_not_mem p.1 rep s hs
      rw [hstep]
      exact ih
  · intro vars s hns
    induction vars with
    | nil => rfl
    | cons p rest ih =>
      simp only [inline_substitution, List.foldl_cons,
        hns p (List.mem_cons_self p rest)]
      exact ih fun q hq => hns q (List.mem_cons_of_mem p hq)

/-- Witness for C4's amended theorem: a `$freq`-only string takes the full
variable value, and an inline occurrence of `$freq` in a single-variable
mapping is textually replaced by its stringification. -/
theorem resolve_value_amended_witness :
    resolve_value [(strL "freq", .str (strL "437.8 MHz"))]
      (.str (strL " $freq ")) = .str (strL "437.8 MHz") ∧
    inline_substitution [(strL "freq", .str (strL "437.8 MHz"))]
      (strL "tune $freq now") = strL "tune 437.8 MHz now" := by
  have h := resolve_value_amended
  constructor
  · exact h.1 [(strL "freq", .str (strL "437.8 MHz"))] (strL " $freq ")
      (strL "freq") (.str (strL "437.8 MHz")) (by decide) (by decide) (by decide)
  · have harg : strL "tune $freq now" =
        strL "tune " ++ '$' :: strL "freq" ++ strL " now" := by decide
    rw [harg, h.2.2.2.1 (strL "freq") (.str (strL "437.8 MHz")) (strL "437.8 MHz")
      (strL "tune ") (strL " now") rfl (by decide)]
    decide

/-! ## Claim C7 -/

theorem except_bind_ok {ε α β : Type} (a : α) (f : α → Except ε β) :
    (Except.ok a >>= f) = f a := rfl

theorem except_bind_error {ε α β : Type} (e : ε) (f : α → Except ε β) :
    ((Except.error e : Except ε α) >>= f) = Except.error e := rfl

theorem parse_step_time_not_validation (rfc : List Char → Option Int)
    (dur : List Char → Option Nat) (i : Nat) (m : YamlMap) (vars : Vars) :
    ∀ msg, parse_step_time rfc dur i m vars ≠ .error (.Validation msg) := by
  intro msg h
  unfold parse_step_time at h
  split at h
  · simp at h
  · split at h
    · simp at h
    · split at h <;> simp at h

theorem parse_step_not_validation (rfc : List Char → Option Int)
    (dur : List Char → Option Nat) (dt : Yaml → Option TrackerCommand)
    (de : Yaml → Option ExecutorCommand) (dr : Yaml → Option RadioCommand)
    (i : Nat) (v : Yaml) (vars : Vars) :
    ∀ msg, parse_step rfc dur dt de dr i v vars ≠ .error (.Validation msg) := by
  intro msg h
  unfold parse_step at h
  split at h
  · rename_i m
    split at h
    · rename_i e heq
      injection h with he
      rw [he] at heq
      exact parse_step_time_not_validation rfc dur i m vars msg heq
    · split at h
      · simp at h
      · split at h
        · simp at h
        · split_ifs at h
          all_goals
            first
              | (dsimp only [] at h; split at h <;> simp at h)
              | simp at h
  · simp at h

/-- Length of a YAML sequence (used to recurse over `YamlSeq`, whose mutual
recursor Lean's `induction` does not use directly). -/
def YamlSeq.length : YamlSeq → Nat
  | .nil => 0
  | .cons _ rest => rest.length + 1

theorem parse_steps_not_validation (rfc : List Char → Option Int)
    (dur : List Char → Option Nat) (dt : Yaml → Option TrackerCommand)
    (de : Yaml → Option ExecutorCommand) (dr : Yaml → Option RadioCommand)
    (vars : Vars) :
    ∀ xs i msg, parse_steps rfc dur dt de dr vars i xs ≠ .error (.Validation msg) := by
  suffices hn : ∀ n xs i msg, YamlSeq.length xs = n →
      parse_steps rfc dur dt de dr vars i xs ≠ .error (.Validation msg) by
    intro xs i msg
    exact hn (YamlSeq.length xs) xs i msg rfl
  intro n
  induction n with
  | zero =>
    intro xs i msg hlen h
    cases xs with
    | nil => simp [parse_steps] at h
    | cons v rest => simp [YamlSeq.length] at hlen
  | succ n ih =>
    intro xs i msg hlen h
    cases xs with
    | nil => simp [parse_steps] at h
    | cons v rest =>
    simp only [parse_steps] at h
    cases hps : parse_step rfc dur dt de dr i v vars with
    | error e =>
      rw [hps, except_bind_error] at h
      injection h with he
      rw [he] at hps
      exact parse_step_not_validation rfc dur dt de dr i v vars msg hps
    | ok step =>
      rw [hps, except_bind_ok] at h
      cases hrest : parse_steps rfc dur dt de dr vars (i + 1) rest with
      | error e =>
        rw [hrest, except_bind_error] at h
        injection h with he
        rw [he] at hrest
        exact ih rest (i + 1) msg (by simpa [YamlSeq.length] using hlen) hrest
      | ok more =>
        rw [hrest, except_bind_ok] at h
        simp at h

/-- C7: `Schedule::from_str` validation. (p) `parse_time_variable` fails with
`Validation` exactly when the variable is missing (or not a string) or does not
parse as an RFC 3339 timestamp. (a)/(a') such a failure of `start` or `end`
becomes the result of `from_str`. (b) when both parse but `end ≤ start`
(including equality), `from_str` fails with a `Validation` error whose message
contains `"must be after"`. (c) when both parse and `end > start`, `from_str`
never returns a `Validation` error. -/
theorem schedule_from_str_validation_spec (rfc : List Char → Option Int)
    (dur : List Char → Option Nat) (dt : Yaml → Option TrackerCommand)
    (de : Yaml → Option ExecutorCommand) (dr : Yaml → Option RadioCommand) :
    (∀ (vs : Vars) name,
      ((lookupVar vs name).bind Yaml.as_str = none ∨
        (∃ s, (lookupVar vs name).bind Yaml.as_str = some s ∧ rfc s = none)) ↔
      (∃ msg, parse_time_variable rfc vs name = .error (.Validation msg))) ∧
    (∀ root vs m, varsExtract root = .ok vs →
      parse_time_variable rfc vs (strL "start") = .error (.Validation m) →
      schedule_from_str rfc dur dt de dr root = .error (.Validation m)) ∧
    (∀ root vs t1 m, varsExtract root = .ok vs →
      parse_time_variable rfc vs (strL "start") = .ok t1 →
      parse_time_variable rfc vs (strL "end") = .error (.Validation m) →
      schedule_from_str rfc dur dt de dr root = .error (.Validation m)) ∧
    (∀ root vs t1 t2, varsExtract root = .ok vs →
      parse_time_variable rfc vs (strL "start") = .ok t1 →
      parse_time_variable rfc vs (strL "end") = .ok t2 →
      t2 ≤ t1 →
      ∃ pre post, schedule_from_str rfc dur dt de dr root =
        .error (.Validation (pre ++ strL "must be after" ++ post))) ∧
    (∀ root vs t1 t2, varsExtract root = .ok vs →
      parse_time_variable rfc vs (strL "start") = .ok t1 →
      parse_time_variable rfc vs (strL "end") = .ok t2 →
      t1 < t2 →
      ∀ msg, schedule_from_str rfc dur dt de dr root ≠ .error (.Validation msg)) := by
  refine ⟨?_, ?_, ?_, ?_, ?_⟩
  · intro vs name
    cases hb : (lookupVar vs name).bind Yaml.as_str with
    | none => simp [parse_time_variable, hb]
    | some s =>
      cases hr : rfc s with
      | none => simp [parse_time_variable, hb, hr]
      | some t => simp [parse_time_variable, hb, hr]
  · intro root vs m hv hs
    simp only [schedule_from_str]
    rw [hv, except_bind_ok, hs, except_bind_error]
  · intro root vs t1 m hv hs he
    simp only [schedule_from_str]
    rw [hv, except_bind_ok, hs, except_bind_ok, he, except_bind_error]
  · intro root vs t1 t2 hv hs he hle
    refine ⟨strL "\x27end\x27 ", strL " \x27start\x27", ?_⟩
    simp only [schedule_from_str]
    rw [hv, except_bind_ok, hs, except_bind_ok, he, except_bind_ok, if_pos hle]
    congr 1
  · intro root vs t1 t2 hv hs he hlt msg
    simp only [schedule_from_str]
    rw [hv, except_bind_ok, hs, except_bind_ok, he, except_bind_ok,
      if_neg (not_le.mpr hlt)]
    cases hget : root.get (strL "steps") with
    | none => simp
    | some val =>
      cases val with
      | seq xs =>
        dsimp only []
        cases hsteps : parse_steps rfc dur dt de dr vs 0 xs with
        | error e =>
          rw [except_bind_error]
          intro h
          injection h with he2
          rw [he2] at hsteps
          exact parse_steps_not_validation rfc dur dt de dr vs xs 0 msg hsteps
        | ok l =>
          rw [except_bind_ok]
          simp
      | null => simp
      | bool b => simp
      | num n => simp
      | str s => simp
      | mapping m => simp

/-- Witness for C7 at concrete documents: `end == start` is rejected with a
`Validation` error containing `"must be after"`; a document whose `variables`
lack `start` is rejected with a `Validation` error; a document with valid
`start < end` never produces a `Validation` error. -/
theorem schedule_from_str_validation_spec_witness :
    (∃ pre post,
      schedule_from_str
        (fun s => if s = strL "2026-01-12T10:00:00Z" then some 1768212000
          else if s = strL "2026-01-12T10:10:00Z" then some 1768212600 else none)
        (fun _ => none) (fun _ => none) (fun _ => none) (fun _ => none)
        (.mapping (.cons (.str (strL "variables"))
          (.mapping (.cons (.str (strL "start")) (.str (strL "2026-01-12T10:00:00Z"))
            (.cons (.str (strL "end")) (.str (strL "2026-01-12T10:00:00Z")) .nil))) .nil)) =
        .error (.Validation (pre ++ strL "must be after" ++ post))) ∧
    (∃ msg,
      schedule_from_str
        (fun s => if s = strL "2026-01-12T10:00:00Z" then some 1768212000
          else if s = strL "2026-01-12T10:10:00Z" then some 1768212600 else none)
        (fun _ => none) (fun _ => none) (fun _ => none) (fun _ => none)
        (.mapping (.cons (.str (strL "variables"))
          (.mapping (.cons (.str (strL "end")) (.str (strL "2026-01-12T10:00:00Z")) .nil))
          .nil)) =
        .error (.Validation msg)) ∧
    (∀ msg,
      schedule_from_str
        (fun s => if s = strL "2026-01-12T10:00:00Z" then some 1768212000
          else if s = strL "2026-01-12T10:10:00Z" then some 1768212600 else none)
        (fun _ => none) (fun _ => none) (fun _ => none) (fun _ => none)
        (.mapping (.cons (.str (strL "variables"))
          (.mapping (.cons (.str (strL "start")) (.str (strL "2026-01-12T10:00:00Z"))
            (.cons (.str (strL "end")) (.str (strL "2026-01-12T10:10:00Z")) .nil))) .nil)) ≠
        .error (.Validation msg)) := by
  have h := schedule_from_str_validation_spec
    (fun s => if s = strL "2026-01-12T10:00:00Z" then some 1768212000
      else if s = strL "2026-01-12T10:10:00Z" then some 1768212600 else none)
    (fun _ => none) (fun _ => none) (fun _ => none) (fun _ => none)
  refine ⟨?_, ?_, ?_⟩
  · exact h.2.2.2.1 _
      [(strL "start", .str (strL "2026-01-12T10:00:00Z")),
        (strL "end", .str (strL "2026-01-12T10:00:00Z"))]
      1768212000 1768212000 (by decide) (by decide) (by decide) le_rfl
  · exact ⟨strL "missing mandatory variable \x27start\x27",
      h.2.1 _ [(strL "end", .str (strL "2026-01-12T10:00:00Z"))]
        (strL "missing mandatory variable \x27start\x27") (by decide) (by decide)⟩
  · intro msg
    exact h.2.2.2.2 _
      [(strL "start", .str (strL "2026-01-12T10:00:00Z")),
        (strL "end", .str (strL "2026-01-12T10:10:00Z"))]
      1768212000 1768212600 (by decide) (by decide) (by decide) (by decide) msg

/-! ## Rounding and normalisation lemmas (for C6 and C10) -/

theorem roundTiesAway_nonneg {x : ℝ} (h : 0 ≤ x) : 0 ≤ roundTiesAway x := by
  rw [roundTiesAway, if_pos h, round_eq]
  exact Int.floor_nonneg.mpr (by linarith)

theorem roundTiesAway_le {x : ℝ} {n : ℤ} (h : x ≤ n) : roundTiesAway x ≤ n := by
  rw [roundTiesAway]
  split_ifs with hx
  · rw [round_eq]
    have h2 : ⌊x + 1 / 2⌋ < n + 1 := Int.floor_lt.mpr (by push_cast; linarith)
    omega
  · have h2 : (-n : ℤ) ≤ round (-x) := by
      rw [round_eq]
      exact Int.le_floor.mpr (by push_cast; linarith)
    omega

theorem le_roundTiesAway {x : ℝ} {n : ℤ} (h : (n : ℝ) ≤ x) : n ≤ roundTiesAway x := by
  rw [roundTiesAway]
  split_ifs with hx
  · rw [round_eq]
    exact Int.le_floor.mpr (by linarith)
  · have h2 : round (-x) ≤ -n := by
      rw [round_eq]
      have h3 : ⌊-x + 1 / 2⌋ < -n + 1 := Int.floor_lt.mpr (by push_cast; linarith)
      omega
    omega

theorem round2_nonneg {v : ℝ} (h : 0 ≤ v) : 0 ≤ round2 v := by
  rw [round2]
  apply div_nonneg _ (by norm_num)
  exact_mod_cast roundTiesAway_nonneg (by nlinarith)

theorem round2_le_intCast {v : ℝ} {n : ℤ} (h : v ≤ (n : ℝ)) : round2 v ≤ (n : ℝ) := by
  rw [round2, div_le_iff₀ (by norm_num : (0 : ℝ) < 100)]
  have h1 : roundTiesAway (v * 100) ≤ n * 100 :=
    roundTiesAway_le (by push_cast; linarith)
  exact_mod_cast h1

theorem intCast_le_round2 {v : ℝ} {n : ℤ} (h : (n : ℝ) ≤ v) : (n : ℝ) ≤ round2 v := by
  rw [round2, le_div_iff₀ (by norm_num : (0 : ℝ) < 100)]
  have h1 : (n * 100 : ℤ) ≤ roundTiesAway (v * 100) :=
    le_roundTiesAway (by push_cast; linarith)
  exact_mod_cast h1

theorem round2_zero : round2 0 = 0 := by
  rw [round2]
  norm_num [roundTiesAway]

theorem rem_euclid_nonneg (x : ℝ) : 0 ≤ rem_euclid x 360 := by
  rw [rem_euclid]
  have h1 : ((⌊x / 360⌋ : ℤ) : ℝ) ≤ x / 360 := Int.floor_le (x / 360)
  have h2 : (360 : ℝ) * ((⌊x / 360⌋ : ℤ) : ℝ) ≤ 360 * (x / 360) := by linarith
  have h3 : (360 : ℝ) * (x / 360) = x := by field_simp
  linarith

theorem rem_euclid_lt (x : ℝ) : rem_euclid x 360 < 360 := by
  rw [rem_euclid]
  have h1 : x / 360 < (⌊x / 360⌋ : ℤ) + 1 := Int.lt_floor_add_one (x / 360)
  have h2 : 360 * (x / 360) < 360 * (((⌊x / 360⌋ : ℤ) : ℝ) + 1) := by linarith
  have h3 : (360 : ℝ) * (x / 360) = x := by field_simp
  nlinarith

/-! ## Claim C10 -/

/-- C10: `propagate_sample` never divides by zero: whenever the computed range
is `0`, the source defines the elevation as `0` and the line-of-sight unit
vector as the zero vector, so the returned sample carries
`elevation_deg = 0` and `range_rate_km_s = 0` instead of results of a division
by zero. -/
theorem propagate_sample_zero_range (station : GroundStation)
    (pos_teme vel_teme : Vec3) (sidereal : ℝ) (ts : Int) (fr : FrequencyPlan)
    (h : los_range_km station pos_teme sidereal = 0) :
    (propagate_sample station pos_teme vel_teme sidereal ts fr).elevation_deg = 0 ∧
    (propagate_sample station pos_teme vel_teme sidereal ts fr).range_rate_km_s = 0 := by
  have hnotpos : ¬ (0 < los_range_km station pos_teme sidereal) := by
    rw [h]
    exact lt_irrefl 0
  constructor
  · show round2 (if 0 < los_range_km station pos_teme sidereal then _ else 0) = 0
    rw [if_neg hnotpos, round2_zero]
  · show round2 (_ * (if 0 < los_range_km station pos_teme sidereal then _ else
      Vec3.mk 0 0 0).x + _ * (if 0 < los_range_km station pos_teme sidereal then _ else
      Vec3.mk 0 0 0).y + _ * (if 0 < los_range_km station pos_teme sidereal then _ else
      Vec3.mk 0 0 0).z) = 0
    rw [if_neg hnotpos]
    simp [round2_zero]

/-- Witness for C10: a station at latitude 0, longitude 0, altitude 0 sits at
ECEF `(6378.137, 0, 0)`; feeding exactly that point as the satellite position
(with sidereal angle 0) makes the computed range 0, and the returned sample has
elevation and range rate 0. -/
theorem propagate_sample_zero_range_witness :
    los_range_km (GroundStation.mk 0 0 0) (Vec3.mk 6378.137 0 0) 0 = 0 ∧
    (propagate_sample (GroundStation.mk 0 0 0) (Vec3.mk 6378.137 0 0) (Vec3.mk 0 0 0)
      0 0 (FrequencyPlan.mk none none)).elevation_deg = 0 ∧
    (propagate_sample (GroundStation.mk 0 0 0) (Vec3.mk 6378.137 0 0) (Vec3.mk 0 0 0)
      0 0 (FrequencyPlan.mk none none)).range_rate_km_s = 0 := by
  have hzero : los_range_km (GroundStation.mk 0 0 0) (Vec3.mk 6378.137 0 0) 0 = 0 := by
    have hsta : (GroundStation.mk 0 0 0).position_ecef_km = Vec3.mk 6378.137 0 0 := by
      simp [GroundStation.position_ecef_km, GroundStation.lat_rad,
        GroundStation.lon_rad, toRadians, Real.sin_zero, Real.cos_zero]
    simp [los_range_km, los_dr, teme_to_ecef_position, hsta, Real.sin_zero,
      Real.cos_zero]
  have h := propagate_sample_zero_range (GroundStation.mk 0 0 0)
    (Vec3.mk 6378.137 0 0) (Vec3.mk 0 0 0) 0 0 (FrequencyPlan.mk none none) hzero
  exact ⟨hzero, h.1, h.2⟩

/-! ## Claim C6 -/

/-- C6 (amended): for every sample produced by `propagate_sample`, the azimuth
*before* rounding lies in `[0, 360)`; after the 2-decimal rounding the stored
`azimuth_deg` lies in `[0, 360]` — it can equal exactly `360` when the
unrounded azimuth is at least `359.995` — while `elevation_deg` lies in
`[-90, 90]` and `range_km` is non-negative as claimed. -/
theorem propagate_sample_bounds (station : GroundStation) (pos_teme vel_teme : Vec3)
    (sidereal : ℝ) (ts : Int) (fr : FrequencyPlan) :
    0 ≤ azimuth_unrounded station pos_teme sidereal ∧
    azimuth_unrounded station pos_teme sidereal < 360 ∧
    (propagate_sample station pos_teme vel_teme sidereal ts fr).azimuth_deg =
      round2 (azimuth_unrounded station pos_teme sidereal) ∧
    0 ≤ (propagate_sample station pos_teme vel_teme sidereal ts fr).azimuth_deg ∧
    (propagate_sample station pos_teme vel_teme sidereal ts fr).azimuth_deg ≤ 360 ∧
    -90 ≤ (propagate_sample station pos_teme vel_teme sidereal ts fr).elevation_deg ∧
    (propagate_sample station pos_teme vel_teme sidereal ts fr).elevation_deg ≤ 90 ∧
    0 ≤ (propagate_sample station pos_teme vel_teme sidereal ts fr).range_km := by
  have haz0 : 0 ≤ azimuth_unrounded station pos_teme sidereal :=
    rem_euclid_nonneg _
  have haz1 : azimuth_unrounded station pos_teme sidereal < 360 :=
    rem_euclid_lt _
  have hazeq : (propagate_sample station pos_teme vel_teme sidereal ts fr).azimuth_deg =
      round2 (azimuth_unrounded station pos_teme sidereal) := rfl
  have hup : (propagate_sample station pos_teme vel_teme sidereal ts fr).azimuth_deg ≤
      360 := by
    rw [hazeq]
    have := round2_le_intCast (n := 360) (by exact_mod_cast le_of_lt haz1)
    exact_mod_cast this
  have hlo : 0 ≤ (propagate_sample station pos_teme vel_teme sidereal ts fr).azimuth_deg := by
    rw [hazeq]
    exact round2_nonneg haz0
  have heleq : (propagate_sample station pos_teme vel_teme sidereal ts fr).elevation_deg =
      round2 (if 0 < los_range_km station pos_teme sidereal then
        toDegrees (Real.arcsin
          ((ecef_to_enu (los_dr station pos_teme sidereal)
            station.lat_rad station.lon_rad).2.2 /
            los_range_km station pos_teme sidereal))
      else 0) := rfl
  have hpi : (0 : ℝ) < 180 / Real.pi :=
    div_pos (by norm_num) Real.pi_pos
  have hel : ∀ u : ℝ, -90 ≤ toDegrees (Real.arcsin u) ∧ toDegrees (Real.arcsin u) ≤ 90 := by
    intro u
    have h1 := Real.arcsin_le_pi_div_two u
    have h2 := Real.neg_pi_div_two_le_arcsin u
    have hkey : (Real.pi / 2) * (180 / Real.pi) = 90 := by
      field_simp
      ring
    constructor
    · have := mul_le_mul_of_nonneg_right h2 (le_of_lt hpi)
      rw [toDegrees]
      nlinarith
    · have := mul_le_mul_of_nonneg_right h1 (le_of_lt hpi)
      rw [toDegrees]
      nlinarith
  have helbounds :
      -90 ≤ (propagate_sample station pos_teme vel_teme sidereal ts fr).elevation_deg ∧
      (propagate_sample station pos_teme vel_teme sidereal ts fr).elevation_deg ≤ 90 := by
    rw [heleq]
    split_ifs with hr
    · set u := (ecef_to_enu (los_dr station pos_teme sidereal)
        station.lat_rad station.lon_rad).2.2 / los_range_km station pos_teme sidereal
      constructor
      · have h90 := intCast_le_round2 (v := toDegrees (Real.arcsin u)) (n := -90)
          (by exact_mod_cast (hel u).1)
        exact_mod_cast h90
      · have h90 := round2_le_intCast (v := toDegrees (Real.arcsin u)) (n := 90)
          (by exact_mod_cast (hel u).2)
        exact_mod_cast h90
    · rw [round2_zero]
      norm_num
  have hrange : 0 ≤ (propagate_sample station pos_teme vel_teme sidereal ts fr).range_km := by
    show 0 ≤ round2 (los_range_km station pos_teme sidereal)
    exact round2_nonneg (Real.sqrt_nonneg _)
  exact ⟨haz0, haz1, hazeq, hlo, hup, helbounds.1, helbounds.2, hrange⟩

theorem floor_div_360_neg_small {v : ℝ} (h0 : -(1/1000) < v) (h1 : v < 0) :
    ⌊v / 360⌋ = (-1 : ℤ) := by
  rw [Int.floor_eq_iff]
  constructor
  · push_cast
    rw [le_div_iff₀ (by norm_num : (0:ℝ) < 360)]
    linarith
  · push_cast
    rw [div_lt_iff₀ (by norm_num : (0:ℝ) < 360)]
    linarith

theorem round2_add_360_eq {v : ℝ} (h0 : -(1/200) ≤ v) (h1 : v < 0) :
    round2 (v + 360) = 360 := by
  have hx0 : 0 ≤ (v + 360) * 100 := by nlinarith
  rw [round2, roundTiesAway, if_pos hx0, round_eq]
  have hfl : ⌊(v + 360) * 100 + 1/2⌋ = (36000 : ℤ) := by
    rw [Int.floor_eq_iff]
    constructor
    · push_cast
      nlinarith
    · push_cast
      nlinarith
  rw [hfl]
  norm_num

/-- Counterexample for C6: at an equatorial station, a satellite whose
line-of-sight points a hair west of due north (east component `−10⁻⁵` km,
north and up components `1` km) has unrounded azimuth
`360 − (180/π)·arctan 10⁻⁵ ∈ (359.999, 360)`; the 2-decimal rounding carries
it to exactly `360.0`, so the stored `azimuth_deg` is `360`, violating the
claimed `azimuth_deg < 360`. -/
theorem azimuth_deg_can_be_360 :
    (propagate_sample (GroundStation.mk 0 0 0) (Vec3.mk 6379.137 (-(1/100000)) 1)
      (Vec3.mk 0 0 0) 0 0 (FrequencyPlan.mk none none)).azimuth_deg = 360 ∧
    ¬ ((propagate_sample (GroundStation.mk 0 0 0) (Vec3.mk 6379.137 (-(1/100000)) 1)
      (Vec3.mk 0 0 0) 0 0 (FrequencyPlan.mk none none)).azimuth_deg < 360) := by
  have hsta : (GroundStation.mk 0 0 0).position_ecef_km = Vec3.mk 6378.137 0 0 := by
    simp [GroundStation.position_ecef_km, GroundStation.lat_rad,
      GroundStation.lon_rad, toRadians, Real.sin_zero, Real.cos_zero]
  have hdr : los_dr (GroundStation.mk 0 0 0) (Vec3.mk 6379.137 (-(1/100000)) 1) 0 =
      Vec3.mk 1 (-(1/100000)) 1 := by
    simp [los_dr, teme_to_ecef_position, hsta, Real.sin_zero, Real.cos_zero]
    norm_num
  have henu : ecef_to_enu (Vec3.mk 1 (-(1/100000)) 1)
      (GroundStation.mk 0 0 0).lat_rad (GroundStation.mk 0 0 0).lon_rad =
      (-(1/100000), 1, 1) := by
    simp [ecef_to_enu, GroundStation.lat_rad, GroundStation.lon_rad, toRadians,
      Real.sin_zero, Real.cos_zero]
  have hproj : (propagate_sample (GroundStation.mk 0 0 0)
      (Vec3.mk 6379.137 (-(1/100000)) 1) (Vec3.mk 0 0 0) 0 0
      (FrequencyPlan.mk none none)).azimuth_deg =
      round2 (rem_euclid (toDegrees (atan2 (-(1/100000)) 1)) 360) := by
    show round2 (rem_euclid (toDegrees (atan2
      (ecef_to_enu (los_dr (GroundStation.mk 0 0 0)
        (Vec3.mk 6379.137 (-(1/100000)) 1) 0)
        (GroundStation.mk 0 0 0).lat_rad (GroundStation.mk 0 0 0).lon_rad).1
      (ecef_to_enu (los_dr (GroundStation.mk 0 0 0)
        (Vec3.mk 6379.137 (-(1/100000)) 1) 0)
        (GroundStation.mk 0 0 0).lat_rad (GroundStation.mk 0 0 0).lon_rad).2.1)) 360) = _
    rw [hdr, henu]
  have hatan : atan2 (-(1/100000)) 1 = -Real.arctan (1/100000) := by
    rw [atan2, if_pos (by norm_num : (0:ℝ) < 1), div_one, Real.arctan_neg]
  have ht0 : 0 < Real.arctan (1/100000) := by
    have h := Real.arctan_strictMono (show (0:ℝ) < 1/100000 by norm_num)
    rwa [Real.arctan_zero] at h
  have ht1 : Real.arctan (1/100000) < 1/100000 := by
    have h2 : Real.arctan (1/100000) < Real.pi / 2 := Real.arctan_lt_pi_div_two _
    have h3 := Real.lt_tan ht0 h2
    rwa [Real.tan_arctan] at h3
  have hpilt : 180 / Real.pi < 60 := by
    rw [div_lt_iff₀ Real.pi_pos]
    nlinarith [Real.pi_gt_three]
  have hd0 : 0 < 180 / Real.pi := div_pos (by norm_num) Real.pi_pos
  have hb1 : 0 < Real.arctan (1/100000) * (180 / Real.pi) := mul_pos ht0 hd0
  have hb2 : Real.arctan (1/100000) * (180 / Real.pi) < 1/1000 := by nlinarith
  have hdeg : toDegrees (-Real.arctan (1/100000)) =
      -(Real.arctan (1/100000) * (180 / Real.pi)) := by
    rw [toDegrees]
    ring
  have hrem : rem_euclid (-(Real.arctan (1/100000) * (180 / Real.pi))) 360 =
      -(Real.arctan (1/100000) * (180 / Real.pi)) + 360 := by
    rw [rem_euclid,
      floor_div_360_neg_small (by linarith) (by linarith)]
    push_cast
    ring
  have heq : (propagate_sample (GroundStation.mk 0 0 0)
      (Vec3.mk 6379.137 (-(1/100000)) 1) (Vec3.mk 0 0 0) 0 0
      (FrequencyPlan.mk none none)).azimuth_deg = 360 := by
    rw [hproj, hatan, hdeg, hrem]
    exact round2_add_360_eq (by nlinarith) (by nlinarith)
  exact ⟨heq, by rw [heq]; exact lt_irrefl 360⟩
